import Mathlib

/-!
Verification of the vdns zone-file engine (sharhalakis/vdns).

This file is a shallow embedding, in Lean 4, of the parts of the vdns
Python code base that the specification talks about:

* `src/vdns/parsing.py`    - line merging and tokenisation helpers
* `src/vdns/zoneparser.py` - the zone-file reader (its own copies of
  `is_ttl`, `parse_ttl`, `parse_line`, plus `ZoneParser.read`)
* `src/vdns/rr.py`         - the typed record model (trailing-dot logic)
* `src/vdns/dnssec.py`     - DNSSEC key tag and DS digest computation
* `src/vdns/common.py`     - `zone_fmttd`, `compact_spaces`, `merge_quotes`
* `src/vdns/zone0.py`      - the dictionary-based zone renderer
* `src/vdns/zonemaker.py`  - source reconciliation and subdomain handling
* `src/vdns/src/src0.py`   - serial-number increment policy

Python strings are modelled as `List Char` (`Str` below).  Functions that
can raise (`vdns.common.abort`, `sys.exit`, uncaught `ValueError` /
`KeyError` / `IndexError`) are modelled with `Except String`.  Machine
integers do not overflow in any code modelled here (Python integers are
unbounded), so `Nat`/`Int` are used directly.
-/

set_option maxRecDepth 100000

namespace Vdns

/-- Python strings as lists of characters. -/
abbrev Str := List Char

/-! ## Python string primitives

Helpers mirroring the Python `str` methods used by the sources:
`strip`, `split` (whitespace form, with and without `maxsplit`),
substring membership (`in`), `startswith`, `count` and friends. -/

/-- Characters stripped by Python `str.strip()` (ASCII whitespace). -/
def pyWs (c : Char) : Bool :=
  c == ' ' || c == '\t' || c == '\n' || c == '\r' || c == '\x0b' || c == '\x0c'

/-- Python `s.strip()`: drop leading and trailing whitespace. -/
def pyStrip (s : Str) : Str :=
  ((s.dropWhile pyWs).reverse.dropWhile pyWs).reverse

/-- Python `s.strip(ch)`: drop leading and trailing copies of `ch`. -/
def pyStripChar (s : Str) (ch : Char) : Str :=
  ((s.dropWhile (· == ch)).reverse.dropWhile (· == ch)).reverse

/-- Helper for `pySplitWs`: `acc` holds the (reversed) current token. -/
def pySplitWsAux : Str → Str → List Str
  | [], acc => if acc.isEmpty then [] else [acc.reverse]
  | c :: rest, acc =>
    if pyWs c then
      if acc.isEmpty then pySplitWsAux rest []
      else acc.reverse :: pySplitWsAux rest []
    else pySplitWsAux rest (c :: acc)

/-- Python `s.split()` with no arguments: split on whitespace runs,
producing no empty tokens. -/
def pySplitWs (s : Str) : List Str := pySplitWsAux s []

/-- Python `s.split(maxsplit=n)`: at most `n` splits; the final element
is the remainder with its internal spacing preserved (leading whitespace
of the remainder is consumed, trailing whitespace kept). -/
def pySplitWsMax : Nat → Str → List Str
  | 0, s =>
    let s1 := s.dropWhile pyWs
    if s1.isEmpty then [] else [s1]
  | n + 1, s =>
    let s1 := s.dropWhile pyWs
    if s1.isEmpty then []
    else s1.takeWhile (fun c => !pyWs c) :: pySplitWsMax n (s1.dropWhile (fun c => !pyWs c))

/-- Does `s` start with `pat`? -/
def leadMatches : Str → Str → Bool
  | [], _ => true
  | _ :: _, [] => false
  | p :: ps, c :: cs => p == c && leadMatches ps cs

/-- Python `pat in s`: substring membership. -/
def hasSub (pat : Str) : Str → Bool
  | [] => pat.isEmpty
  | c :: cs => leadMatches pat (c :: cs) || hasSub pat cs

/-- Split `s` at every occurrence of the character `sep`
(Python `s.split(sep)` for a single-character separator). -/
def splitOnCharAux (sep : Char) : Str → Str → List Str
  | [], acc => [acc.reverse]
  | c :: rest, acc =>
    if c == sep then acc.reverse :: splitOnCharAux sep rest []
    else splitOnCharAux sep rest (c :: acc)

/-- Python `s.split(sep)` for one separator character: keeps empty fields. -/
def splitOnChar (sep : Char) (s : Str) : List Str := splitOnCharAux sep s []

/-- Python `s.splitlines()` for `'\n'`-separated text: like splitting on
`'\n'` but without a trailing empty element when the text ends in `'\n'`. -/
def splitlines (s : Str) : List Str :=
  let parts := splitOnChar '\n' s
  if parts.getLastD [] = [] then parts.dropLast else parts

/-- Decimal digits, in the order Python's `is_ttl` lists them. -/
def digitChars : Str := "1234567890".toList

/-- Python `int(s)` restricted to non-empty all-digit strings (the only
shapes produced and consumed by the code modelled here); anything else
raises `ValueError`. -/
def pyInt (s : Str) : Except String Nat :=
  if s ≠ [] ∧ s.all (fun c => c.isDigit) then
    .ok (s.foldl (fun acc c => acc * 10 + (c.toNat - 48)) 0)
  else .error "ValueError: invalid literal for int"

namespace parsing

/-- List of known RRs from `parsing.py` (line 28). -/
def RRS : List Str :=
  ["A", "AAAA", "NS", "CNAME", "DKIM", "DNSKEY", "DS", "MX", "PTR", "SSHFP", "TXT",
   "SOA", "SRV"].map String.toList

/-- `parsing.is_ttl` (parsing.py lines 57-60): non-empty, the first
character is a decimal digit, and no `'.'` occurs anywhere. -/
def is_ttl (st : Str) : Bool :=
  !st.isEmpty && digitChars.contains (st.headD ' ') && !st.contains '.'

end parsing

namespace zoneparser

/-- List of known RRs from `zoneparser.py` (line 20). -/
def RRS : List Str :=
  ["A", "AAAA", "NS", "CNAME", "MX", "TXT", "SOA", "DNSKEY", "PTR"].map String.toList

/-- `zoneparser.is_ttl` (zoneparser.py lines 23-27): non-empty, the first
character is a decimal digit, the last character is not `'.'`, and
`"arpa"` does not occur as a substring. -/
def is_ttl (st : Str) : Bool :=
  !st.isEmpty && digitChars.contains (st.headD ' ')
    && !(st.getLastD ' ' == '.') && !hasSub "arpa".toList st

end zoneparser

/-! ## Substring helper lemmas -/

theorem leadMatches_iff (p s : Str) : leadMatches p s = true ↔ ∃ t, s = p ++ t := by
  induction p generalizing s with
  | nil => simp [leadMatches]
  | cons x xs ih =>
    cases s with
    | nil =>
      simp [leadMatches]
    | cons c cs =>
      simp only [leadMatches, Bool.and_eq_true, beq_iff_eq, ih, List.cons_append]
      constructor
      · rintro ⟨rfl, t, rfl⟩
        exact ⟨t, rfl⟩
      · rintro ⟨t, ht⟩
        injection ht with h1 h2
        exact ⟨h1.symm, t, h2⟩

theorem hasSub_iff (pat s : Str) :
    hasSub pat s = true ↔ ∃ pre post, s = pre ++ pat ++ post := by
  induction s with
  | nil =>
    simp only [hasSub, List.isEmpty_iff]
    constructor
    · rintro rfl
      exact ⟨[], [], rfl⟩
    · rintro ⟨pre, post, h⟩
      exact (List.append_eq_nil.mp (List.append_eq_nil.mp h.symm).1).2
  | cons c cs ih =>
    simp only [hasSub, Bool.or_eq_true, leadMatches_iff, ih]
    constructor
    · rintro (⟨t, ht⟩ | ⟨pre, post, h⟩)
      · exact ⟨[], t, by simpa using ht⟩
      · exact ⟨c :: pre, post, by simp [h]⟩
    · rintro ⟨pre, post, h⟩
      cases pre with
      | nil =>
        exact Or.inl ⟨post, by simpa using h⟩
      | cons p ps =>
        right
        simp only [List.cons_append] at h
        injection h with h1 h2
        exact ⟨ps, post, h2⟩

/-- Claim C5 (counterexample): the claimed TTL rule — non-empty, leading
digit, no `'.'` and no `"arpa"` — matches neither implementation.
`parsing.is_ttl` accepts `"1arpa"` even though it contains `"arpa"`
(that implementation never checks for `"arpa"`), and `zoneparser.is_ttl`
accepts `"1.2"` even though it contains a `'.'` (that implementation
only checks the *last* character against `'.'`). -/
theorem c5_counterexample :
    parsing.is_ttl "1arpa".toList = true
      ∧ hasSub "arpa".toList "1arpa".toList = true
      ∧ zoneparser.is_ttl "1.2".toList = true
      ∧ "1.2".toList.contains '.' = true := by
  decide

/-- Claim C5 (amended): the two `is_ttl` implementations use different
rules, neither exactly the claimed one.  `parsing.is_ttl st` holds iff
`st` is non-empty, starts with a decimal digit, and contains no `'.'`
anywhere (there is no `"arpa"` check); `zoneparser.is_ttl st` holds iff
`st` is non-empty, starts with a decimal digit, does not *end* with
`'.'`, and does not contain `"arpa"` as a substring (inner dots are
allowed). -/
theorem c5_is_ttl_characterisation (st : Str) :
    (parsing.is_ttl st = true ↔
      st ≠ [] ∧ st.headD ' ' ∈ digitChars ∧ '.' ∉ st)
    ∧ (zoneparser.is_ttl st = true ↔
      st ≠ [] ∧ st.headD ' ' ∈ digitChars ∧ st.getLastD ' ' ≠ '.'
        ∧ ¬∃ pre post, st = pre ++ "arpa".toList ++ post) := by
  constructor
  · simp [parsing.is_ttl, List.isEmpty_iff, List.elem_iff, and_assoc]
  · unfold zoneparser.is_ttl
    rw [Bool.and_eq_true, Bool.and_eq_true, Bool.and_eq_true]
    constructor
    · rintro ⟨⟨⟨h1, h2⟩, h3⟩, h4⟩
      refine ⟨?_, List.elem_iff.mp h2, ?_, ?_⟩
      · intro hst
        rw [hst] at h1
        simp at h1
      · intro hlast
        rw [hlast] at h3
        simp at h3
      · intro hex
        rw [← hasSub_iff, ← Bool.not_eq_false] at hex
        rw [Bool.not_eq_true'] at h4
        exact hex h4
    · rintro ⟨h1, h2, h3, h4⟩
      refine ⟨⟨⟨?_, List.elem_iff.mpr h2⟩, ?_⟩, ?_⟩
      · simpa [List.isEmpty_iff] using h1
      · simpa using h3
      · rw [Bool.not_eq_true']
        cases hs : hasSub "arpa".toList st with
        | false => rfl
        | true => exact absurd ((hasSub_iff _ _).mp hs) h4

/-- Claim C5 (witness): the characterisation evaluated at `"1800"`. -/
theorem c5_is_ttl_characterisation_witness :
    parsing.is_ttl "1800".toList = true ↔
      "1800".toList ≠ [] ∧ "1800".toList.headD ' ' ∈ digitChars
        ∧ '.' ∉ "1800".toList :=
  (c5_is_ttl_characterisation "1800".toList).1

theorem getLastD_append_right (A B : Str) (hB : B ≠ []) (d : Char) :
    (A ++ B).getLastD d = B.getLastD d := by
  cases hb : B.getLast? with
  | none =>
    simp [List.getLast?_eq_none_iff] at hb
    exact absurd hb hB
  | some b =>
    rw [List.getLastD_eq_getLast?, List.getLastD_eq_getLast?,
      List.getLast?_append_of_ne_nil _ hB, hb]

/-! ## Decimal rendering of numbers (Python `str(n)` / f-strings) -/

/-- The character of a single decimal digit. -/
def digitChar (n : Nat) : Char := Char.ofNat (48 + n)

/-- Fuel-driven decimal digit expansion, most significant digit first. -/
def natReprAux : Nat → Nat → Str
  | 0, _ => []
  | fuel + 1, n =>
    if n < 10 then [digitChar n]
    else natReprAux fuel (n / 10) ++ [digitChar (n % 10)]

/-- Python `str(n)` for a natural number. -/
def natRepr (n : Nat) : Str := natReprAux (n + 1) n

/-- Python `f'{s:<w}'`: left-justify by padding with spaces to width `w`. -/
def ljust (s : Str) (w : Nat) : Str := s ++ List.replicate (w - s.length) ' '

/-! ## The trailing-dot logic of the record model (`rr.py`)

`_StringRecord` carries the rendered RDATA plus the dot-control fields:
an explicit `_needsdot` (set by `MX`, `NS` and `SRV`) and `autodot`
(set by `CNAME`); the `needsdot` property (rr.py lines 69-74) combines
them, and `RR.make_string` (rr.py lines 117-125) appends the final
`'.'`. -/

namespace rr

/-- The fields of `_StringRecord` (rr.py lines 47-67) that participate in
dot handling.  The four record kinds modelled here never set
`multiline_st`, `comment`, `hostname` or `rrname`, so those fields are
omitted. -/
structure StringRecord where
  st : Str
  needsdotOpt : Option Bool := none
  autodot : Nat := 0

/-- The `needsdot` property (rr.py lines 69-74): an explicitly assigned
value wins; otherwise `autodot > 0 and st.count('.') >= autodot`. -/
def StringRecord.needsdot (r : StringRecord) : Bool :=
  match r.needsdotOpt with
  | some b => b
  | none => decide (0 < r.autodot) && decide (r.autodot ≤ r.st.count '.')

/-- The data-validation and dot-appending steps of `RR.make_string`
(rr.py lines 117-125) for a single-line record: empty data raises
`BadRecordError`; otherwise a `'.'` is appended iff `needsdot` holds and
the data does not already end with `'.'`. -/
def applyDot (r : StringRecord) : Except String Str :=
  if r.st.isEmpty then .error "BadRecordError: Record is missing the data"
  else if r.needsdot && !(r.st.getLastD ' ' == '.') then .ok (r.st ++ ['.'])
  else .ok r.st

/-- `MX._records` (rr.py lines 205-209): data is
`f'\x7bself.priority:<4\x7d \x7bself.mx\x7d'`; `needsdot` is set iff `mx`
contains at least two dots. -/
def MX_records (priority : Nat) (mx : Str) : StringRecord :=
  let ret : StringRecord := { st := ljust (natRepr priority) 4 ++ ' ' :: mx }
  if 2 ≤ mx.count '.' then { ret with needsdotOpt := some true } else ret

/-- `NS._records` (rr.py lines 223-227): data is the target `ns`;
`needsdot` is set iff `ns` contains at least two dots. -/
def NS_records (ns : Str) : StringRecord :=
  let ret : StringRecord := { st := ns }
  if 2 ≤ ns.count '.' then { ret with needsdotOpt := some true } else ret

/-- `CNAME._records` (rr.py lines 317-318): data is the target
`hostname0` with `autodot=2`. -/
def CNAME_records (hostname0 : Str) : StringRecord :=
  { st := hostname0, autodot := 2 }

/-- `SRV._records` (rr.py lines 668-671): data is
`'priority weight port target'`; `needsdot` is set iff the target
contains at least **one** dot. -/
def SRV_records (priority weight port : Nat) (target : Str) : StringRecord :=
  { st := natRepr priority ++ ' ' :: natRepr weight ++ ' ' :: natRepr port ++ ' ' :: target,
    needsdotOpt := some (decide (1 ≤ target.count '.')) }

end rr

/-- Appends `'.'` to `s` iff `cond` holds and `s` does not already end
with `'.'` — the dotting rule described by the spec, parameterised by the
dot-count condition. -/
def dotIf (cond : Prop) [Decidable cond] (s : Str) : Str :=
  if cond ∧ s.getLastD ' ' ≠ '.' then s ++ ['.'] else s

theorem isEmpty_append_cons (A B : Str) (c : Char) : (A ++ c :: B).isEmpty = false := by
  cases A <;> rfl

theorem applyDot_simple (tgt : Str) (htgt : tgt ≠ []) (r : rr.StringRecord)
    (cond : Prop) [Decidable cond] (hst : r.st = tgt)
    (hnd : r.needsdot = decide cond) :
    rr.applyDot r = .ok (dotIf cond tgt) := by
  have hemp : tgt.isEmpty = false :=
    Bool.eq_false_iff.mpr (fun h => htgt (List.isEmpty_iff.mp h))
  unfold rr.applyDot dotIf
  rw [hst, hnd, hemp]
  simp only [Bool.false_eq_true, if_false]
  by_cases hcond : cond
  · by_cases hl : tgt.getLastD ' ' = '.'
    · have hbe : (tgt.getLastD ' ' == '.') = true := beq_iff_eq.mpr hl
      rw [if_neg (by rw [hbe]; simp), if_neg (fun hand => hand.2 hl)]
    · have hbe : (tgt.getLastD ' ' == '.') = false := beq_eq_false_iff_ne.mpr hl
      rw [if_pos (by rw [hbe]; simp [hcond]), if_pos ⟨hcond, hl⟩]
  · rw [if_neg (by simp [hcond]), if_neg (fun hand => hcond hand.1)]

theorem applyDot_pref (A tgt : Str) (c : Char) (r : rr.StringRecord)
    (cond : Prop) [Decidable cond] (hst : r.st = A ++ c :: tgt)
    (hnd : r.needsdot = decide cond) (hc0 : tgt = [] → ¬cond) :
    rr.applyDot r = .ok (A ++ c :: dotIf cond tgt) := by
  unfold rr.applyDot dotIf
  rw [hst, hnd, isEmpty_append_cons]
  simp only [Bool.false_eq_true, if_false]
  by_cases htgt : tgt = []
  · subst htgt
    rw [if_neg (by simp [hc0 rfl]), if_neg (by simp [hc0 rfl])]
  · have hl : (A ++ c :: tgt).getLastD ' ' = tgt.getLastD ' ' := by
      have : A ++ c :: tgt = (A ++ [c]) ++ tgt := by simp
      rw [this, getLastD_append_right _ _ htgt]
    rw [hl]
    by_cases hcond : cond
    · by_cases hlast : tgt.getLastD ' ' = '.'
      · have hbe : (tgt.getLastD ' ' == '.') = true := beq_iff_eq.mpr hlast
        rw [if_neg (by rw [hbe]; simp), if_neg (fun hand => hand.2 hlast)]
      · have hbe : (tgt.getLastD ' ' == '.') = false := beq_eq_false_iff_ne.mpr hlast
        rw [if_pos (by rw [hbe]; simp [hcond]), if_pos ⟨hcond, hlast⟩]
        simp
    · rw [if_neg (by simp [hcond]), if_neg (fun hand => hcond hand.1)]

/-- Claim C4 (counterexample): an SRV target with exactly **one** dot is
rendered *with* a trailing dot appended, contradicting the claim that a
target with fewer than two dots is rendered unchanged.  (MX, NS and
CNAME do use the two-dot threshold.) -/
theorem c4_counterexample :
    rr.applyDot (rr.SRV_records 5 0 5222 "host.example".toList)
      = .ok "5 0 5222 host.example.".toList
    ∧ "host.example".toList.count '.' = 1 := by
  constructor
  · rfl
  · decide

/-- Claim C4 (amended): for CNAME, NS and MX records the rendered target
gets a trailing dot exactly when it contains at least two dots and does
not already end with one; for SRV records the threshold is at least
**one** dot (not two).  Targets failing the threshold are rendered
unchanged; an empty NS or CNAME target fails rendering instead
(`BadRecordError`). -/
theorem c4_trailing_dot (mx ns h0 tgt : Str) (prio w port : Nat)
    (hns : ns ≠ []) (hh0 : h0 ≠ []) :
    rr.applyDot (rr.MX_records prio mx)
      = .ok (ljust (natRepr prio) 4 ++ ' ' :: dotIf (2 ≤ mx.count '.') mx)
    ∧ rr.applyDot (rr.NS_records ns) = .ok (dotIf (2 ≤ ns.count '.') ns)
    ∧ rr.applyDot (rr.CNAME_records h0) = .ok (dotIf (2 ≤ h0.count '.') h0)
    ∧ rr.applyDot (rr.SRV_records prio w port tgt)
      = .ok (natRepr prio ++ ' ' :: natRepr w ++ ' ' :: natRepr port ++ ' '
              :: dotIf (1 ≤ tgt.count '.') tgt) := by
  refine ⟨?_, ?_, ?_, ?_⟩
  · have hstmx : (rr.MX_records prio mx).st = ljust (natRepr prio) 4 ++ ' ' :: mx := by
      unfold rr.MX_records
      by_cases hc : 2 ≤ mx.count '.' <;> simp [hc]
    have hndmx : (rr.MX_records prio mx).needsdot = decide (2 ≤ mx.count '.') := by
      unfold rr.MX_records
      by_cases hc : 2 ≤ mx.count '.' <;> simp [hc, rr.StringRecord.needsdot]
    exact applyDot_pref _ mx ' ' _ _ hstmx hndmx (fun h => by subst h; simp)
  · have hndns : (rr.NS_records ns).needsdot = decide (2 ≤ ns.count '.') := by
      unfold rr.NS_records
      by_cases hc : 2 ≤ ns.count '.' <;> simp [hc, rr.StringRecord.needsdot]
    have hstns : (rr.NS_records ns).st = ns := by
      unfold rr.NS_records
      by_cases hc : 2 ≤ ns.count '.' <;> simp [hc]
    exact applyDot_simple ns hns _ _ hstns hndns
  · have hndcn : (rr.CNAME_records h0).needsdot = decide (2 ≤ h0.count '.') := by
      simp [rr.CNAME_records, rr.StringRecord.needsdot]
    exact applyDot_simple h0 hh0 _ _ rfl hndcn
  · have hstsrv : (rr.SRV_records prio w port tgt).st
        = (natRepr prio ++ ' ' :: natRepr w ++ ' ' :: natRepr port) ++ ' ' :: tgt := by
      simp [rr.SRV_records]
    have hndsrv : (rr.SRV_records prio w port tgt).needsdot
        = decide (1 ≤ tgt.count '.') := by
      simp [rr.SRV_records, rr.StringRecord.needsdot]
    have h := applyDot_pref _ tgt ' ' _ _ hstsrv hndsrv (fun h => by subst h; simp)
    rw [h]

/-- Claim C4 (witness): the amended dotting rule applied at a concrete
NS target (two dots, no trailing dot: a dot is appended). -/
theorem c4_trailing_dot_witness :
    rr.applyDot (rr.NS_records "ns1.example.com".toList)
      = .ok (dotIf (2 ≤ "ns1.example.com".toList.count '.') "ns1.example.com".toList) :=
  (c4_trailing_dot [] "ns1.example.com".toList "h".toList [] 0 0 0
    (by decide) (by decide)).2.1

/-! ## The subdomain guard of `ZoneMaker.get_zone_data` (`zonemaker.py`) -/

namespace zonemaker

/-- The subdomain check in `ZoneMaker.get_zone_data` (zonemaker.py lines
183-190): a subdomain name reported by the main source is accepted
(recursed into) iff `subname[-ldom:] == domain` where `ldom =
len(domain)`; otherwise `raise Exception` stops the run.  Python
`s[-n:]` is the whole string when `n = 0` and the last `min(n, len(s))`
characters otherwise. -/
def sub_accepted (domain subname : Str) : Bool :=
  (if domain.length = 0 then subname
   else subname.drop (subname.length - domain.length)) == domain

end zonemaker

/-- Claim C6 (counterexample): the parent domain name itself passes the
subdomain guard, yet it is not of the form `x.<domain>` with non-empty
`x` — so a name that is not a strict dot-suffix of the parent is *not*
rejected before the nested `ZoneMaker` run (recursing on it would repeat
the same domain). -/
theorem c6_counterexample :
    zonemaker.sub_accepted "example.com".toList "example.com".toList = true
    ∧ ¬∃ x : Str, x ≠ [] ∧ "example.com".toList = x ++ '.' :: "example.com".toList := by
  constructor
  · decide
  · rintro ⟨x, hx, h⟩
    have hlen := congrArg List.length h
    simp [List.length_append] at hlen

/-- Claim C6 (amended): the guard in `ZoneMaker.get_zone_data` accepts a
reported subdomain name iff the parent domain's *text* is a suffix of it
(its last `len(domain)` characters equal the domain).  Every strict
dot-suffix `x.<domain>` is accepted, but so are the parent domain itself
and any name merely ending in the parent's text without a dot boundary,
so the guard does not by itself prevent recursion cycles. -/
theorem c6_subdomain_guard (domain subname x : Str) (hd : domain ≠ []) :
    (zonemaker.sub_accepted domain subname = true ↔ ∃ pre, subname = pre ++ domain)
    ∧ zonemaker.sub_accepted domain (x ++ '.' :: domain) = true
    ∧ zonemaker.sub_accepted domain domain = true := by
  have hlen : domain.length ≠ 0 := fun h => hd (List.length_eq_zero.mp h)
  have hiff : zonemaker.sub_accepted domain subname = true
      ↔ ∃ pre, subname = pre ++ domain := by
    unfold zonemaker.sub_accepted
    rw [if_neg hlen, beq_iff_eq]
    constructor
    · intro h
      refine ⟨subname.take (subname.length - domain.length), ?_⟩
      conv_lhs => rw [← List.take_append_drop (subname.length - domain.length) subname]
      rw [h]
    · rintro ⟨pre, rfl⟩
      have : (pre ++ domain).length - domain.length = pre.length := by
        simp [List.length_append]
      rw [this, List.drop_left]
  refine ⟨hiff, ?_, ?_⟩
  · unfold zonemaker.sub_accepted
    rw [if_neg hlen, beq_iff_eq]
    have : x ++ '.' :: domain = (x ++ ['.']) ++ domain := by simp
    rw [this]
    have hl : ((x ++ ['.']) ++ domain).length - domain.length = (x ++ ['.']).length := by
      simp [List.length_append]
      omega
    rw [hl, List.drop_left]
  · unfold zonemaker.sub_accepted
    rw [if_neg hlen, beq_iff_eq]
    simp

/-- Claim C6 (witness): the guard accepts `sub.example.com` under
`example.com`, and the characterisation holds there. -/
theorem c6_subdomain_guard_witness :
    zonemaker.sub_accepted "example.com".toList ("sub".toList ++ '.' :: "example.com".toList)
      = true :=
  (c6_subdomain_guard "example.com".toList [] "sub".toList (by decide)).2.1

/-! ## Decimal rendering: correctness lemmas -/

/-- The numeric value read back from a digit string, as Python
`int` computes it. -/
def pyIntVal (s : Str) : Nat := s.foldl (fun acc c => acc * 10 + (c.toNat - 48)) 0

theorem digitChar_spec (d : Nat) (hd : d < 10) :
    (digitChar d).isDigit = true ∧ (digitChar d).toNat = 48 + d := by
  interval_cases d <;> exact ⟨by decide, by decide⟩

theorem pyIntVal_append_digit (A : Str) (c : Char) :
    pyIntVal (A ++ [c]) = 10 * pyIntVal A + (c.toNat - 48) := by
  unfold pyIntVal
  rw [List.foldl_append]
  simp [Nat.mul_comm]

theorem natReprAux_spec (fuel : Nat) :
    ∀ n, 0 < fuel → n < 10 ^ fuel →
      natReprAux fuel n ≠ [] ∧ (natReprAux fuel n).all Char.isDigit = true
        ∧ pyIntVal (natReprAux fuel n) = n := by
  induction fuel with
  | zero =>
    intro n h0 _
    exact absurd h0 (by omega)
  | succ f ih =>
    intro n _ hn
    unfold natReprAux
    by_cases h10 : n < 10
    · rw [if_pos h10]
      obtain ⟨hdig, hval⟩ := digitChar_spec n h10
      refine ⟨by simp, by simp [hdig], ?_⟩
      unfold pyIntVal
      simp [hval]
    · rw [if_neg h10]
      have hf : 0 < f := by
        by_contra hf0
        have : f = 0 := by omega
        subst this
        simp at hn
        omega
      have hdiv : n / 10 < 10 ^ f := by
        have h1 : n < 10 ^ (f + 1) := hn
        rw [pow_succ] at h1
        omega
      obtain ⟨hne, hdig, hval⟩ := ih (n / 10) hf hdiv
      obtain ⟨hdig2, hval2⟩ := digitChar_spec (n % 10) (Nat.mod_lt _ (by omega))
      refine ⟨by simp, ?_, ?_⟩
      · simp only [List.all_append, hdig, Bool.true_and, List.all_cons, List.all_nil,
          Bool.and_true]
        exact hdig2
      · rw [pyIntVal_append_digit, hval, hval2]
        omega

theorem natRepr_spec (n : Nat) :
    natRepr n ≠ [] ∧ (natRepr n).all Char.isDigit = true ∧ pyIntVal (natRepr n) = n := by
  refine natReprAux_spec (n + 1) n (by omega) ?_
  calc n < 10 ^ n := Nat.lt_pow_self (by omega) n
    _ ≤ 10 ^ (n + 1) := Nat.pow_le_pow_right (by omega) (by omega)

theorem pyInt_natRepr (n : Nat) : pyInt (natRepr n) = .ok n := by
  obtain ⟨hne, hdig, hval⟩ := natRepr_spec n
  unfold pyInt
  rw [if_pos ⟨hne, hdig⟩]
  exact congrArg Except.ok hval

/-! ## `zone_fmttd` (`common.py` lines 82-136) and `parse_ttl`
(`parsing.py` lines 170-193) -/

namespace common

/-- The return type of `zone_fmttd` (common.py lines 76-79). -/
structure FmttdReturn where
  value : Str
  human_readable : Str
deriving DecidableEq

/-- The unit table of `zone_fmttd` (common.py lines 90-94): seconds per
unit, zone-file suffix, singular and plural human name. -/
def fmttdList : List (Nat × Str × Str × Str) :=
  [(1, "".toList, "second".toList, "seconds".toList),
   (60, "M".toList, "minute".toList, "minutes".toList),
   (3600, "H".toList, "hour".toList, "hours".toList),
   (86400, "D".toList, "day".toList, "days".toList),
   (86400 * 7, "W".toList, "week".toList, "weeks".toList)]

/-- The scan of `zone_fmttd` (common.py lines 102-106): walk the unit
list in ascending order, remembering the last unit that divides `ts`
exactly, and stop at the first one that does not. -/
def fmttdPickAux (ts : Nat) : List (Nat × Str × Str × Str) → Nat × Str → Nat × Str
  | [], ent => ent
  | i :: rest, ent =>
    if ts % i.1 ≠ 0 then ent else fmttdPickAux ts rest (i.1, i.2.1)

/-- The unit chosen by `zone_fmttd` for `ts` seconds. -/
def fmttdPick (ts : Nat) : Nat × Str := fmttdPickAux ts fmttdList (1, [])

/-- The human-readable part of `zone_fmttd` (common.py lines 112-134):
walk the unit list in descending order with `divmod`, skipping zero
counts and stopping early when the remainder hits zero. -/
def fmttdHumanAux : List (Nat × Str × Str × Str) → Nat → List Str
  | [], _ => []
  | (sz, _, sing, plur) :: rest, rem =>
    let t := rem / sz
    let rem2 := rem % sz
    if t = 0 then fmttdHumanAux rest rem2
    else
      let st := natRepr t ++ ' ' :: (if t = 1 then sing else plur)
      if rem2 = 0 then [st] else st :: fmttdHumanAux rest rem2

/-- `zone_fmttd` (common.py lines 82-136) on a whole number of seconds:
raises `ValueError` on zero, otherwise renders the count scaled by the
chosen unit plus the unit suffix, and the human-readable breakdown. -/
def zone_fmttd (ts : Nat) : Except String FmttdReturn :=
  if ts = 0 then .error "ValueError: Timedelta can't be 0"
  else
    let ent := fmttdPick ts
    .ok { value := natRepr (ts / ent.1) ++ ent.2,
          human_readable :=
            List.intercalate ", ".toList (fmttdHumanAux fmttdList.reverse ts) }

end common

namespace parsing

/-- The TTL-letter table of `parse_ttl` (parsing.py lines 174-179). -/
def deltaOf (c : Char) : Option Nat :=
  if c == 'M' then some 60
  else if c == 'H' then some 3600
  else if c == 'D' then some 86400
  else if c == 'W' then some (86400 * 7)
  else none

/-- `parse_ttl` (parsing.py lines 170-193): a trailing digit means a bare
seconds count; a trailing `M`/`H`/`D`/`W` (case-insensitive) scales the
leading number; anything else aborts.  The result is the duration in
whole seconds. -/
def parse_ttl (st : Str) : Except String Nat :=
  match st.getLast? with
  | none => .error "IndexError: string index out of range"
  | some c =>
    if c.isDigit then pyInt st
    else
      match deltaOf c.toUpper with
      | some d => do
        let v ← pyInt st.dropLast
        .ok (v * d)
      | none => .error "Cannot parse ttl"

end parsing

/-- The largest unit among seconds, `M`, `H`, `D`, `W` that divides `ts`
exactly, with its zone-file suffix — the rule as the claim states it. -/
def claimUnit (ts : Nat) : Nat × Str :=
  if 86400 * 7 ∣ ts then (86400 * 7, "W".toList)
  else if 86400 ∣ ts then (86400, "D".toList)
  else if 3600 ∣ ts then (3600, "H".toList)
  else if 60 ∣ ts then (60, "M".toList)
  else (1, [])

theorem fmttdPick_eq_claimUnit (ts : Nat) :
    common.fmttdPick ts = claimUnit ts := by
  have e1 : ts % 1 = 0 := Nat.mod_one ts
  unfold common.fmttdPick common.fmttdList claimUnit
  by_cases h60 : ts % 60 = 0 <;> by_cases h3600 : ts % 3600 = 0 <;>
    by_cases h86400 : ts % 86400 = 0 <;> by_cases hW : ts % (86400 * 7) = 0 <;>
    first
      | (exfalso; omega)
      | simp [common.fmttdPickAux, e1, h60, h3600, h86400, hW, Nat.dvd_iff_mod_eq_zero]

theorem claimUnit_dvd (ts : Nat) : (claimUnit ts).1 ∣ ts := by
  unfold claimUnit
  by_cases hW : 86400 * 7 ∣ ts
  · simpa [hW] using hW
  · rw [if_neg hW]
    by_cases hD : 86400 ∣ ts
    · simpa [hD] using hD
    · rw [if_neg hD]
      by_cases hH : 3600 ∣ ts
      · simpa [hH] using hH
      · rw [if_neg hH]
        by_cases hM : 60 ∣ ts
        · simpa [hM] using hM
        · rw [if_neg hM]
          exact Nat.one_dvd ts

theorem claimUnit_max (ts u : Nat) (hu : u ∈ [1, 60, 3600, 86400, 86400 * 7])
    (hdvd : u ∣ ts) : u ≤ (claimUnit ts).1 := by
  unfold claimUnit
  by_cases hW : 86400 * 7 ∣ ts
  · rw [if_pos hW]
    fin_cases hu <;> norm_num
  · rw [if_neg hW]
    by_cases hD : 86400 ∣ ts
    · rw [if_pos hD]
      fin_cases hu <;> first | exact absurd hdvd hW | norm_num
    · rw [if_neg hD]
      by_cases hH : 3600 ∣ ts
      · rw [if_pos hH]
        fin_cases hu <;>
          first
            | exact absurd hdvd hW
            | exact absurd hdvd hD
            | norm_num
      · rw [if_neg hH]
        by_cases hM : 60 ∣ ts
        · rw [if_pos hM]
          fin_cases hu <;>
            first
              | exact absurd hdvd hW
              | exact absurd hdvd hD
              | exact absurd hdvd hH
              | norm_num
        · rw [if_neg hM]
          fin_cases hu <;>
            first
              | exact absurd hdvd hW
              | exact absurd hdvd hD
              | exact absurd hdvd hH
              | exact absurd hdvd hM
              | norm_num

theorem parse_ttl_plain (q : Nat) : parsing.parse_ttl (natRepr q) = .ok q := by
  obtain ⟨hne, hdig, _⟩ := natRepr_spec q
  cases hlast : (natRepr q).getLast? with
  | none =>
    exact absurd (List.getLast?_eq_none_iff.mp hlast) hne
  | some c =>
    have hcd : c.isDigit = true := by
      have hmem := List.mem_of_mem_getLast? hlast
      exact List.all_eq_true.mp hdig c hmem
    unfold parsing.parse_ttl
    rw [hlast]
    simp [hcd, pyInt_natRepr]

theorem parse_ttl_scaled (q d : Nat) (c : Char)
    (hd : parsing.deltaOf c.toUpper = some d) (hc : c.isDigit = false) :
    parsing.parse_ttl (natRepr q ++ [c]) = .ok (q * d) := by
  unfold parsing.parse_ttl
  rw [List.getLast?_concat]
  simp only [hc, Bool.false_eq_true, if_false, hd, List.dropLast_concat, pyInt_natRepr]
  rfl

theorem append_singleton_ne_zero (A : Str) (c : Char) (hc : c ≠ '0') :
    A ++ [c] ≠ ['0'] := by
  intro h
  have hl := congrArg List.getLast? h
  rw [List.getLast?_concat] at hl
  simp at hl
  exact hc hl

theorem natRepr_ne_zero_str (ts : Nat) (hts : 0 < ts) : natRepr ts ≠ ['0'] := by
  intro h
  have := congrArg pyIntVal h
  rw [(natRepr_spec ts).2.2] at this
  simp [pyIntVal] at this
  omega

/-- Claim C10: `zone_fmttd` raises `ValueError` for a zero duration; for
every positive whole-second duration it renders the count scaled by the
largest unit among seconds, `M` (60), `H` (3600), `D` (86400), `W`
(604800) that divides the duration exactly (`7200` renders as `2H`,
`90` as `90`); the rendered token is never `'0'` and `parse_ttl` maps it
back to the same duration. -/
theorem c10_zone_fmttd (ts : Nat) (hts : 0 < ts) :
    common.zone_fmttd 0 = .error "ValueError: Timedelta can't be 0"
    ∧ (∃ r, common.zone_fmttd ts = .ok r
        ∧ r.value = natRepr (ts / (claimUnit ts).1) ++ (claimUnit ts).2
        ∧ (claimUnit ts).1 ∣ ts
        ∧ (∀ u ∈ [1, 60, 3600, 86400, 86400 * 7], u ∣ ts → u ≤ (claimUnit ts).1)
        ∧ r.value ≠ ['0']
        ∧ parsing.parse_ttl r.value = .ok ts)
    ∧ (common.zone_fmttd 7200).map common.FmttdReturn.value = .ok "2H".toList
    ∧ (common.zone_fmttd 90).map common.FmttdReturn.value = .ok "90".toList := by
  refine ⟨rfl, ?_, by rfl, by rfl⟩
  refine ⟨⟨natRepr (ts / (claimUnit ts).1) ++ (claimUnit ts).2,
    List.intercalate ", ".toList (common.fmttdHumanAux common.fmttdList.reverse ts)⟩,
    ?_, rfl, claimUnit_dvd ts, fun u hu hdvd => claimUnit_max ts u hu hdvd, ?_, ?_⟩
  · simp only [common.zone_fmttd]
    rw [if_neg (by omega), fmttdPick_eq_claimUnit ts]
  · show natRepr (ts / (claimUnit ts).1) ++ (claimUnit ts).2 ≠ ['0']
    unfold claimUnit
    by_cases hW : 86400 * 7 ∣ ts
    · rw [if_pos hW]
      exact append_singleton_ne_zero _ _ (by decide)
    · rw [if_neg hW]
      by_cases hD : 86400 ∣ ts
      · rw [if_pos hD]
        exact append_singleton_ne_zero _ _ (by decide)
      · rw [if_neg hD]
        by_cases hH : 3600 ∣ ts
        · rw [if_pos hH]
          exact append_singleton_ne_zero _ _ (by decide)
        · rw [if_neg hH]
          by_cases hM : 60 ∣ ts
          · rw [if_pos hM]
            exact append_singleton_ne_zero _ _ (by decide)
          · rw [if_neg hM]
            simpa using natRepr_ne_zero_str ts hts
  · show parsing.parse_ttl (natRepr (ts / (claimUnit ts).1) ++ (claimUnit ts).2) = .ok ts
    unfold claimUnit
    by_cases hW : 86400 * 7 ∣ ts
    · rw [if_pos hW]
      show parsing.parse_ttl (natRepr (ts / (86400 * 7)) ++ ['W']) = .ok ts
      rw [parse_ttl_scaled _ (86400 * 7) 'W' (by decide) (by decide),
        Nat.div_mul_cancel hW]
    · rw [if_neg hW]
      by_cases hD : 86400 ∣ ts
      · rw [if_pos hD]
        show parsing.parse_ttl (natRepr (ts / 86400) ++ ['D']) = .ok ts
        rw [parse_ttl_scaled _ 86400 'D' (by decide) (by decide),
          Nat.div_mul_cancel hD]
      · rw [if_neg hD]
        by_cases hH : 3600 ∣ ts
        · rw [if_pos hH]
          show parsing.parse_ttl (natRepr (ts / 3600) ++ ['H']) = .ok ts
          rw [parse_ttl_scaled _ 3600 'H' (by decide) (by decide),
            Nat.div_mul_cancel hH]
        · rw [if_neg hH]
          by_cases hM : 60 ∣ ts
          · rw [if_pos hM]
            show parsing.parse_ttl (natRepr (ts / 60) ++ ['M']) = .ok ts
            rw [parse_ttl_scaled _ 60 'M' (by decide) (by decide),
              Nat.div_mul_cancel hM]
          · rw [if_neg hM]
            simpa using parse_ttl_plain ts

/-- Claim C10 (witness): the theorem applied at 7200 seconds. -/
theorem c10_zone_fmttd_witness :
    (common.zone_fmttd 7200).map common.FmttdReturn.value = .ok "2H".toList :=
  (c10_zone_fmttd 7200 (by decide)).2.2.1

/-! ## DNSSEC key tags (`dnssec.py` lines 28-49) -/

namespace dnssec

/-- Value of a character in the standard base64 alphabet. -/
def b64Val (c : Char) : Option Nat :=
  if 'A' ≤ c ∧ c ≤ 'Z' then some (c.toNat - 65)
  else if 'a' ≤ c ∧ c ≤ 'z' then some (c.toNat - 97 + 26)
  else if '0' ≤ c ∧ c ≤ '9' then some (c.toNat - 48 + 52)
  else if c = '+' then some 62
  else if c = '/' then some 63
  else none

/-- Decode one 4-character base64 group into 1-3 bytes, honouring `'='`
padding. -/
def b64Group : List Char → List Nat
  | [c1, c2, c3, c4] =>
    match b64Val c1, b64Val c2 with
    | some v1, some v2 =>
      let b1 := v1 * 4 + v2 / 16
      if c3 = '=' then [b1]
      else
        match b64Val c3 with
        | some v3 =>
          let b2 := (v2 % 16) * 16 + v3 / 4
          if c4 = '=' then [b1, b2]
          else
            match b64Val c4 with
            | some v4 => [b1, b2, (v3 % 4) * 64 + v4]
            | none => []
        | none => []
    | _, _ => []
  | _ => []

/-- Group a character stream in fours. -/
def b64chunks : List Char → List (List Char)
  | c1 :: c2 :: c3 :: c4 :: rest => [c1, c2, c3, c4] :: b64chunks rest
  | _ => []

/-- Python `base64.b64decode` (with its default `validate=False`, which
first discards characters outside the alphabet): group the remaining
characters in fours and decode each group. -/
def b64decode (s : Str) : List Nat :=
  ((b64chunks (s.filter (fun c => (b64Val c).isSome || c == '='))).map b64Group).flatten

/-- `struct.pack('!HBB', flags, protocol, algorithm)`: a big-endian
16-bit value followed by two single bytes. -/
def packHBB (flags protocol algorithm : Nat) : List Nat :=
  [flags / 256 % 256, flags % 256, protocol % 256, algorithm % 256]

/-- The accumulation loop of `calc_dnssec_keyid` (dnssec.py lines
39-45): bytes at even indexes are added shifted left by 8, bytes at odd
indexes are added as-is. -/
def keyidSumAux : List Nat → Bool → Nat
  | [], _ => 0
  | b :: rest, evenIdx => (if evenIdx then b * 256 else b) + keyidSumAux rest (!evenIdx)

/-- `calc_dnssec_keyid` (dnssec.py lines 28-49): strip spaces from the
base64 text, build `header || decoded-key`, run the index-parity sum,
then fold the accumulator's upper 16 bits into the lower 16 and mask. -/
def calc_dnssec_keyid (flags protocol algorithm : Nat) (st : Str) : Nat :=
  let st0 := st.filter (fun c => !(c == ' '))
  let st2 := packHBB flags protocol algorithm ++ b64decode st0
  let cnt := keyidSumAux st2 true
  ((cnt &&& 0xFFFF) + (cnt >>> 16)) &&& 0xFFFF

end dnssec

/-- RFC 4034 key-tag word decomposition: consecutive byte pairs become
big-endian 16-bit words; a trailing odd byte counts as a high byte. -/
def toWords : List Nat → List Nat
  | [] => []
  | [b] => [b * 256]
  | b0 :: b1 :: rest => (b0 * 256 + b1) :: toWords rest

/-- RFC 4034 appendix B key tag of a byte buffer: sum the 16-bit words,
add the upper 16 bits of the accumulator into the lower 16, mask to 16
bits. -/
def rfcKeyTag (buf : List Nat) : Nat :=
  let s := (toWords buf).sum
  ((s &&& 0xFFFF) + (s >>> 16)) &&& 0xFFFF

theorem keyidSumAux_eq_toWords (bs : List Nat) :
    dnssec.keyidSumAux bs true = (toWords bs).sum := by
  induction bs using toWords.induct with
  | case1 => rfl
  | case2 b => simp [dnssec.keyidSumAux, toWords]
  | case3 b0 b1 rest ih =>
    simp only [dnssec.keyidSumAux, toWords, List.sum_cons]
    simp [ih]
    ring

/-- The ZSK example key from the spec (dnssec_test.py lines 31-37). -/
def zskKey : Str :=
  ("AwEAAcivnbSxgMkTvzCTA/Py2qqo3EANPUwqL4HalAfNmuDGuFaOu+xT"
  ++ "KlXjiLyfUMKcuy+jKPamGn//z+B5Zsy4j6a1KAaT5u9fli8BH5C1r2Pg"
  ++ "qXKvT6YTwk2M5djuLXdeoe9d5rFzcd7tu01ifFsrh3s7pARkOpjV26Fq"
  ++ "NkxPTiKLidsdAjviHRI5SGAyEx6ouKN1b54HO0uZXPB2xewzjNtWNL37"
  ++ "PW0l/lAeCba78CUu4X4510J2J/BzQ3e7ST6UOQE3gU7pvsM4agZIoiC/"
  ++ "UQ+DFODNrdtfU8UAceMl7L6AZgCN8x7H6KOr3phuAzbg3/u+eNyxEu7c"
  ++ "9baFjzcc63c=").toList

/-- The KSK example key from the spec (dnssec_test.py lines 46-52). -/
def kskKey : Str :=
  ("AwEAAaFplLMHAtp1G51nt1eyEC0SHx07gpD/ccEyyCZuTyaNgd8gVPjV"
  ++ "phYtph0EVY5VxKAVFyRmvAhEPRqmuCioupIf8L0Qb49PjPJ/i2pqQXbS"
  ++ "BwPlrP1CpXk5n1mOcNlS0mg8n1VT1nWAVS3ub72Zt8NHBPWZEtJLPY3M"
  ++ "YdhN765WviUzvmYHrimVJ3Dd3rlVvOY4Xd/cG/PdO5KVKm+FeGmgdSwl"
  ++ "tO15XEL9cdusQdnURW4n7USuQi3apZK3Sh+aMCVjzuZmmtuSmPPYLMVz"
  ++ "wy12PCORZuegHApLYVA+d0S10eVbtxFPJOtluzcsfZk5b5BHMQUvptyN"
  ++ "X9pXWEqWrUk=").toList

/-! ## SHA-1 and SHA-256 (FIPS 180-4), for the DS digests

`calc_ds_sigs` calls Python's `hashlib`; these are the standard hash
functions, modelled here over byte lists with 32-bit word arithmetic
(`% 2^32` after every addition, bitwise operators on `Nat`). -/

/-- 2^32, the word modulus of both hash functions. -/
def M32 : Nat := 4294967296

def rotr32 (x n : Nat) : Nat := ((x >>> n) ||| (x <<< (32 - n))) % M32

def rotl32 (x n : Nat) : Nat := ((x <<< n) ||| (x >>> (32 - n))) % M32

/-- Big-endian 8-byte encoding of a length in bits. -/
def be8 (n : Nat) : List Nat :=
  [n >>> 56 % 256, n >>> 48 % 256, n >>> 40 % 256, n >>> 32 % 256,
   n >>> 24 % 256, n >>> 16 % 256, n >>> 8 % 256, n % 256]

/-- Merkle-Damgard padding shared by SHA-1 and SHA-256: append `0x80`,
zero-pad to 56 mod 64, append the bit length as 8 big-endian bytes. -/
def shaPad (msg : List Nat) : List Nat :=
  let L := msg.length
  let z := (64 + 56 - ((L + 1) % 64)) % 64
  msg ++ [0x80] ++ List.replicate z 0 ++ be8 (L * 8)

def chunks64Aux : Nat → List Nat → List (List Nat)
  | 0, _ => []
  | _ + 1, [] => []
  | fuel + 1, l => l.take 64 :: chunks64Aux fuel (l.drop 64)

/-- Split a byte list into 64-byte blocks. -/
def chunks64 (l : List Nat) : List (List Nat) := chunks64Aux l.length l

/-- Big-endian 32-bit words of a byte list. -/
def toWords32 : List Nat → List Nat
  | b0 :: b1 :: b2 :: b3 :: rest => (((b0 * 256 + b1) * 256 + b2) * 256 + b3) :: toWords32 rest
  | _ => []

/-- The SHA-256 round constants (FIPS 180-4 section 4.2.2), written in
decimal. -/
def K256 : List Nat :=
  [1116352408, 1899447441, 3049323471, 3921009573, 961987163, 1508970993,
   2453635748, 2870763221, 3624381080, 310598401, 607225278, 1426881987,
   1925078388, 2162078206, 2614888103, 3248222580, 3835390401, 4022224774,
   264347078, 604807628, 770255983, 1249150122, 1555081692, 1996064986,
   2554220882, 2821834349, 2952996808, 3210313671, 3336571891, 3584528711,
   113926993, 338241895, 666307205, 773529912, 1294757372, 1396182291,
   1695183700, 1986661051, 2177026350, 2456956037, 2730485921, 2820302411,
   3259730800, 3345764771, 3516065817, 3600352804, 4094571909, 275423344,
   430227734, 506948616, 659060556, 883997877, 958139571, 1322822218,
   1537002063, 1747873779, 1955562222, 2024104815, 2227730452, 2361852424,
   2428436474, 2756734187, 3204031479, 3329325298]

/-- Next word of the SHA-256 message schedule. -/
def w256Next (ws : List Nat) : Nat :=
  let n := ws.length
  let w15 := ws.getD (n - 15) 0
  let w2 := ws.getD (n - 2) 0
  let w16 := ws.getD (n - 16) 0
  let w7 := ws.getD (n - 7) 0
  let s0 := (rotr32 w15 7) ^^^ (rotr32 w15 18) ^^^ (w15 >>> 3)
  let s1 := (rotr32 w2 17) ^^^ (rotr32 w2 19) ^^^ (w2 >>> 10)
  (w16 + s0 + w7 + s1) % M32

def extend256 : Nat → List Nat → List Nat
  | 0, ws => ws
  | k + 1, ws => extend256 k (ws ++ [w256Next ws])

/-- The eight SHA-256 working variables. -/
structure H256 where
  a : Nat
  b : Nat
  c : Nat
  d : Nat
  e : Nat
  f : Nat
  g : Nat
  h : Nat

/-- One SHA-256 compression round (word, constant). -/
def step256 (s : H256) (wk : Nat × Nat) : H256 :=
  let S1 := rotr32 s.e 6 ^^^ rotr32 s.e 11 ^^^ rotr32 s.e 25
  let ch := (s.e &&& s.f) ^^^ ((s.e ^^^ 0xFFFFFFFF) &&& s.g)
  let t1 := (s.h + S1 + ch + wk.2 + wk.1) % M32
  let S0 := rotr32 s.a 2 ^^^ rotr32 s.a 13 ^^^ rotr32 s.a 22
  let maj := (s.a &&& s.b) ^^^ (s.a &&& s.c) ^^^ (s.b &&& s.c)
  let t2 := (S0 + maj) % M32
  ⟨(t1 + t2) % M32, s.a, s.b, s.c, (s.d + t1) % M32, s.e, s.f, s.g⟩

def addH (x y : H256) : H256 :=
  ⟨(x.a + y.a) % M32, (x.b + y.b) % M32, (x.c + y.c) % M32, (x.d + y.d) % M32,
   (x.e + y.e) % M32, (x.f + y.f) % M32, (x.g + y.g) % M32, (x.h + y.h) % M32⟩

def block256 (h : H256) (blk : List Nat) : H256 :=
  let ws := extend256 48 (toWords32 blk)
  addH h ((ws.zip K256).foldl step256 h)

/-- SHA-256 digest of a byte list, as eight 32-bit words. -/
def sha256Words (msg : List Nat) : List Nat :=
  let init : H256 := ⟨0x6a09e667, 0xbb67ae85, 0x3c6ef372, 0xa54ff53a,
                      0x510e527f, 0x9b05688c, 0x1f83d9ab, 0x5be0cd19⟩
  let fin := (chunks64 (shaPad msg)).foldl block256 init
  [fin.a, fin.b, fin.c, fin.d, fin.e, fin.f, fin.g, fin.h]

/-- Uppercase hexadecimal digit. -/
def hexDigit (n : Nat) : Char :=
  if n < 10 then Char.ofNat (48 + n) else Char.ofNat (65 + n - 10)

def hex32 (w : Nat) : Str :=
  [hexDigit (w >>> 28 % 16), hexDigit (w >>> 24 % 16), hexDigit (w >>> 20 % 16),
   hexDigit (w >>> 16 % 16), hexDigit (w >>> 12 % 16), hexDigit (w >>> 8 % 16),
   hexDigit (w >>> 4 % 16), hexDigit (w % 16)]

/-- Uppercase-hex SHA-256 digest (Python
`hashlib.sha256(b).hexdigest().upper()`). -/
def sha256Hex (msg : List Nat) : Str := ((sha256Words msg).map hex32).flatten

/-- Next word of the SHA-1 message schedule. -/
def w1Next (ws : List Nat) : Nat :=
  let n := ws.length
  rotl32 ((ws.getD (n - 3) 0) ^^^ (ws.getD (n - 8) 0)
    ^^^ (ws.getD (n - 14) 0) ^^^ (ws.getD (n - 16) 0)) 1

def extend1 : Nat → List Nat → List Nat
  | 0, ws => ws
  | k + 1, ws => extend1 k (ws ++ [w1Next ws])

/-- The five SHA-1 working variables plus the round index. -/
structure H1 where
  a : Nat
  b : Nat
  c : Nat
  d : Nat
  e : Nat
  i : Nat

/-- One SHA-1 compression round. -/
def step1 (s : H1) (w : Nat) : H1 :=
  let fk : Nat × Nat :=
    if s.i < 20 then ((s.b &&& s.c) ||| ((s.b ^^^ 0xFFFFFFFF) &&& s.d), 0x5A827999)
    else if s.i < 40 then (s.b ^^^ s.c ^^^ s.d, 0x6ED9EBA1)
    else if s.i < 60 then ((s.b &&& s.c) ||| (s.b &&& s.d) ||| (s.c &&& s.d), 0x8F1BBCDC)
    else (s.b ^^^ s.c ^^^ s.d, 0xCA62C1D6)
  let temp := (rotl32 s.a 5 + fk.1 + s.e + fk.2 + w) % M32
  ⟨temp, s.a, rotl32 s.b 30, s.c, s.d, s.i + 1⟩

def block1 (h : Nat × Nat × Nat × Nat × Nat) (blk : List Nat) : Nat × Nat × Nat × Nat × Nat :=
  let ws := extend1 64 (toWords32 blk)
  let fin := ws.foldl step1 ⟨h.1, h.2.1, h.2.2.1, h.2.2.2.1, h.2.2.2.2, 0⟩
  ((h.1 + fin.a) % M32, (h.2.1 + fin.b) % M32, (h.2.2.1 + fin.c) % M32,
   (h.2.2.2.1 + fin.d) % M32, (h.2.2.2.2 + fin.e) % M32)

/-- SHA-1 digest of a byte list, as five 32-bit words. -/
def sha1Words (msg : List Nat) : List Nat :=
  let fin := (chunks64 (shaPad msg)).foldl block1
    (0x67452301, 0xEFCDAB89, 0x98BADCFE, 0x10325476, 0xC3D2E1F0)
  [fin.1, fin.2.1, fin.2.2.1, fin.2.2.2.1, fin.2.2.2.2]

/-- Uppercase-hex SHA-1 digest (Python
`hashlib.sha1(b).hexdigest().upper()`). -/
def sha1Hex (msg : List Nat) : Str := ((sha1Words msg).map hex32).flatten

namespace dnssec

/-- The return type of `calc_ds_sigs` (dnssec.py lines 22-25). -/
structure DSSigs where
  sha1 : Str
  sha256 : Str
deriving DecidableEq

/-- `calc_ds_sigs` (dnssec.py lines 52-83): build
`header || decoded-key`, turn the owner name into DNS wire format (a
trailing dot is appended when missing, so the final empty label encodes
the root as a zero byte), and return both digests in uppercase hex.
An empty owner raises `IndexError` (`owner[-1]`); labels are encoded as
a length byte (`struct.pack('B', ...)`, here reduced mod 256 — real
labels are short) followed by the ASCII codes of their characters. -/
def calc_ds_sigs (owner : Str) (flags protocol algorithm : Nat) (st : Str) :
    Except String DSSigs :=
  match owner.getLast? with
  | none => .error "IndexError: string index out of range"
  | some last =>
    let st0 := st.filter (fun c => !(c == ' '))
    let st2 := packHBB flags protocol algorithm ++ b64decode st0
    let owner2 := if last = '.' then owner else owner ++ ['.']
    let owner3 := ((splitOnChar '.' owner2).map
      (fun i => i.length % 256 :: i.map Char.toNat)).flatten
    let st3 := owner3 ++ st2
    .ok { sha1 := sha1Hex st3, sha256 := sha256Hex st3 }

end dnssec

/-- DNS wire format of an owner name written without a trailing dot, as
the spec describes it: each dot-separated label prefixed by its length
byte, followed by the implied root label (a zero byte). -/
def wireName (owner : Str) : List Nat :=
  ((splitOnChar '.' owner).map (fun l => l.length % 256 :: l.map Char.toNat)).flatten ++ [0]

theorem splitOnCharAux_append_sep (sep : Char) (s : Str) :
    ∀ acc, splitOnCharAux sep (s ++ [sep]) acc = splitOnCharAux sep s acc ++ [[]] := by
  induction s with
  | nil =>
    intro acc
    simp [splitOnCharAux]
  | cons c cs ih =>
    intro acc
    by_cases hc : c = sep
    · simp [splitOnCharAux, hc, ih]
    · simp [splitOnCharAux, hc, ih]

/-- Claim C2: `calc_dnssec_keyid` computes the RFC 4034 key tag of the
buffer `flags(16-bit BE) || protocol(8) || algorithm(8) || decoded-key`:
big-endian 16-bit word sum (trailing odd byte as high byte), one fold of
the upper 16 accumulator bits into the lower 16, and a 16-bit mask; the
spec's ZSK example (flags 256) yields 52396, the KSK example
(flags 257) yields 27869. -/
theorem c2_keytag (flags protocol algorithm : Nat) (st : Str) :
    dnssec.calc_dnssec_keyid flags protocol algorithm st
      = rfcKeyTag (dnssec.packHBB flags protocol algorithm
          ++ dnssec.b64decode (st.filter (fun c => !(c == ' '))))
    ∧ dnssec.calc_dnssec_keyid 256 3 8 zskKey = 52396
    ∧ dnssec.calc_dnssec_keyid 257 3 8 kskKey = 27869 := by
  refine ⟨?_, by decide, by decide⟩
  show ((dnssec.keyidSumAux _ true &&& 0xFFFF) + (dnssec.keyidSumAux _ true >>> 16))
      &&& 0xFFFF = _
  rw [keyidSumAux_eq_toWords]
  rfl

/-- Claim C3: `calc_ds_sigs` returns the uppercase-hex SHA-1 and SHA-256
digests of `wire-format owner || flags/protocol/algorithm header ||
decoded key`, with the wire format adding the implied root label; on
owner `test2.example.com` with the spec's ZSK example it returns the two
expected digests. -/
theorem c3_ds_sigs (owner : Str) (flags protocol algorithm : Nat) (st : Str)
    (hne : owner ≠ []) (hdot : owner.getLastD ' ' ≠ '.') :
    (dnssec.calc_ds_sigs owner flags protocol algorithm st
      = .ok { sha1 := sha1Hex (wireName owner ++ dnssec.packHBB flags protocol algorithm
                ++ dnssec.b64decode (st.filter (fun c => !(c == ' ')))),
              sha256 := sha256Hex (wireName owner ++ dnssec.packHBB flags protocol algorithm
                ++ dnssec.b64decode (st.filter (fun c => !(c == ' ')))) })
    ∧ dnssec.calc_ds_sigs "test2.example.com".toList 256 3 8 zskKey
      = .ok { sha1 := "1DCE328AA7CD9D3B26E7C31861B860B2C0310A2D".toList,
              sha256 := "79474CCB104B61AE55532BE9DE3D443C5A38FD2E3D9F125DCD97C0AA58F9A653".toList } := by
  constructor
  · cases hlast : owner.getLast? with
    | none =>
      exact absurd (List.getLast?_eq_none_iff.mp hlast) hne
    | some c =>
      have hc : c ≠ '.' := by
        intro hcd
        apply hdot
        rw [List.getLastD_eq_getLast?, hlast, hcd]
        rfl
      unfold dnssec.calc_ds_sigs
      rw [hlast]
      simp only [if_neg hc]
      have hsplit : splitOnChar '.' (owner ++ ['.']) = splitOnChar '.' owner ++ [[]] :=
        splitOnCharAux_append_sep '.' owner []
      rw [hsplit]
      simp only [List.map_append, List.flatten_append, wireName, List.append_assoc]
      rfl
  · rfl

/-! ## Reverse-zone PTR ordering (`zone0.py` lines 499-524)

`Zone0.make_reverse` keys the reverse-designated host records by
`b'%d-%s' % (ip.version, ip.packed)` in a dict (so duplicate keys
collapse, last record wins) and renders them in sorted key order. -/

/-- An IP address: version tag plus packed (network-order) bytes. -/
inductive IPAddr
  | v4 (bytes : List Nat)
  | v6 (bytes : List Nat)
deriving DecidableEq

def IPAddr.version : IPAddr → Nat
  | .v4 _ => 4
  | .v6 _ => 6

def IPAddr.packed : IPAddr → List Nat
  | .v4 b => b
  | .v6 b => b

/-- A host record as consumed by `make_reverse`: only `ip` and the
`reverse` flag drive selection and ordering. -/
structure RevHost where
  hostname : Str
  domain : Str
  ip : IPAddr
  reverse : Bool
deriving DecidableEq

/-- Byte ordering of Python `bytes` comparison: lexicographic, with a
strict shorter-is-smaller tie-break. -/
def lexLeB : List Nat → List Nat → Bool
  | [], _ => true
  | _ :: _, [] => false
  | a :: as, b :: bs => if a < b then true else if a = b then lexLeB as bs else false

/-- `lexLeB` as a relation. -/
def keyLe (a b : List Nat) : Prop := lexLeB a b = true

instance : DecidableRel keyLe := fun a b => instDecidableEqBool _ _

namespace zone0

/-- The sort key of `make_reverse` (zone0.py line 517) and the identical
`PTR.sort_key` (rr.py lines 302-304): the ASCII decimal digits of the IP
version, a `'-'` byte (45), then the packed address bytes. -/
def revKey (ip : IPAddr) : List Nat :=
  (natRepr ip.version).map Char.toNat ++ 45 :: ip.packed

/-- Python dict assignment `m[k] = v`: replace in place if the key
exists, else append. -/
def pyDictInsert (m : List (List Nat × RevHost)) (k : List Nat) (v : RevHost) :
    List (List Nat × RevHost) :=
  if m.any (fun p => p.1 == k) then
    m.map (fun p => if p.1 == k then (k, v) else p)
  else m ++ [(k, v)]

/-- The dict built by `make_reverse` (zone0.py lines 510-518): skip
records not designated as reverse, key the rest by `revKey`. -/
def revDict (hosts : List RevHost) : List (List Nat × RevHost) :=
  hosts.foldl (fun m h => if !h.reverse then m else pyDictInsert m (revKey h.ip) h) []

/-- The key order in which `make_reverse` renders PTR records
(zone0.py line 520, `for x in sorted(hosts)`). -/
def make_reverse_order (hosts : List RevHost) : List (List Nat) :=
  List.insertionSort keyLe ((revDict hosts).map (fun p => p.1))

end zone0

theorem lexLeB_total : ∀ a b : List Nat, lexLeB a b = true ∨ lexLeB b a = true
  | [], _ => Or.inl rfl
  | _ :: _, [] => Or.inr rfl
  | a :: as, b :: bs => by
    simp only [lexLeB]
    rcases Nat.lt_trichotomy a b with h | h | h
    · left
      rw [if_pos h]
    · subst h
      rw [if_neg (lt_irrefl a), if_pos rfl, if_neg (lt_irrefl a), if_pos rfl]
      exact lexLeB_total as bs
    · right
      rw [if_pos h]

theorem lexLeB_trans : ∀ a b c : List Nat,
    lexLeB a b = true → lexLeB b c = true → lexLeB a c = true
  | [], _, _, _, _ => rfl
  | _ :: _, [], _, hab, _ => by simp [lexLeB] at hab
  | _ :: _, _ :: _, [], _, hbc => by simp [lexLeB] at hbc
  | a :: as, b :: bs, c :: cs, hab, hbc => by
    simp only [lexLeB] at hab hbc ⊢
    by_cases h1 : a < b
    · by_cases h2 : b < c
      · rw [if_pos (lt_trans h1 h2)]
      · rw [if_neg h2] at hbc
        by_cases h3 : b = c
        · subst h3
          rw [if_pos h1]
        · rw [if_neg h3] at hbc
          exact absurd hbc (by simp)
    · rw [if_neg h1] at hab
      by_cases h4 : a = b
      · rw [if_pos h4] at hab
        subst h4
        by_cases h2 : a < c
        · rw [if_pos h2]
        · rw [if_neg h2] at hbc ⊢
          by_cases h3 : a = c
          · rw [if_pos h3] at hbc ⊢
            exact lexLeB_trans as bs cs hab hbc
          · rw [if_neg h3] at hbc
            exact absurd hbc (by simp)
      · rw [if_neg h4] at hab
        exact absurd hab (by simp)

theorem lexLeB_antisymm : ∀ a b : List Nat,
    lexLeB a b = true → lexLeB b a = true → a = b
  | [], [], _, _ => rfl
  | [], _ :: _, _, hba => by simp [lexLeB] at hba
  | _ :: _, [], hab, _ => by simp [lexLeB] at hab
  | a :: as, b :: bs, hab, hba => by
    simp only [lexLeB] at hab hba
    rcases Nat.lt_trichotomy a b with h | h | h
    · rw [if_neg (by omega), if_neg (by omega)] at hba
      exact absurd hba (by simp)
    · subst h
      rw [if_neg (lt_irrefl a), if_pos rfl] at hab hba
      rw [lexLeB_antisymm as bs hab hba]
    · rw [if_neg (by omega), if_neg (by omega)] at hab
      exact absurd hab (by simp)

instance : IsTotal (List Nat) keyLe := ⟨lexLeB_total⟩

instance : IsTrans (List Nat) keyLe := ⟨lexLeB_trans⟩

instance : IsAntisymm (List Nat) keyLe := ⟨lexLeB_antisymm⟩

theorem keys_pyDictInsert (m : List (List Nat × RevHost)) (k : List Nat) (v : RevHost) :
    (zone0.pyDictInsert m k v).map (fun p => p.1)
      = if k ∈ m.map (fun p => p.1) then m.map (fun p => p.1)
        else m.map (fun p => p.1) ++ [k] := by
  unfold zone0.pyDictInsert
  by_cases hmem : k ∈ m.map (fun p => p.1)
  · obtain ⟨p0, hp0, hp0k⟩ := List.mem_map.mp hmem
    have hany : m.any (fun p => p.1 == k) = true :=
      List.any_eq_true.mpr ⟨p0, hp0, by simp [hp0k]⟩
    rw [if_pos hany, if_pos hmem, List.map_map]
    apply List.map_congr_left
    intro p _
    by_cases hpk : p.1 = k
    · simp [hpk]
    · simp [hpk]
  · have hany : m.any (fun p => p.1 == k) = false := by
      rw [List.any_eq_false]
      intro p hp
      simp only [beq_iff_eq]
      intro hpk
      exact hmem (List.mem_map.mpr ⟨p, hp, hpk⟩)
    rw [if_neg (by simp [hany]), if_neg hmem]
    simp

/-- One step of the `make_reverse` dict-building loop. -/
def revStep (m : List (List Nat × RevHost)) (h : RevHost) : List (List Nat × RevHost) :=
  if !h.reverse then m else zone0.pyDictInsert m (zone0.revKey h.ip) h

theorem revDict_eq_foldl (hosts : List RevHost) :
    zone0.revDict hosts = hosts.foldl revStep [] := rfl

theorem mem_keys_revFold : ∀ (hosts : List RevHost) (m : List (List Nat × RevHost))
    (x : List Nat),
    (x ∈ (hosts.foldl revStep m).map (fun p => p.1)) ↔
      x ∈ m.map (fun p => p.1)
        ∨ x ∈ (hosts.filter (fun h => h.reverse)).map (fun h => zone0.revKey h.ip)
  | [], m, x => by simp
  | h :: t, m, x => by
    rw [List.foldl_cons]
    by_cases hrev : h.reverse
    · have hstep : revStep m h = zone0.pyDictInsert m (zone0.revKey h.ip) h := by
        simp [revStep, hrev]
      rw [hstep, mem_keys_revFold t _ x, keys_pyDictInsert]
      have hfil : (h :: t).filter (fun h => h.reverse)
          = h :: t.filter (fun h => h.reverse) := by
        simp [List.filter_cons, hrev]
      rw [hfil, List.map_cons, List.mem_cons]
      by_cases hk : zone0.revKey h.ip ∈ m.map (fun p => p.1)
      · rw [if_pos hk]
        constructor
        · rintro (hm | ht)
          · exact Or.inl hm
          · exact Or.inr (Or.inr ht)
        · rintro (hm | hx | ht)
          · exact Or.inl hm
          · rw [hx]
            exact Or.inl hk
          · exact Or.inr ht
      · rw [if_neg hk, List.mem_append]
        constructor
        · rintro ((hm | hx) | ht)
          · exact Or.inl hm
          · exact Or.inr (Or.inl (List.mem_singleton.mp hx))
          · exact Or.inr (Or.inr ht)
        · rintro (hm | hx | ht)
          · exact Or.inl (Or.inl hm)
          · exact Or.inl (Or.inr (List.mem_singleton.mpr hx))
          · exact Or.inr ht
    · have hstep : revStep m h = m := by simp [revStep, hrev]
      rw [hstep, mem_keys_revFold t m x]
      simp [List.filter_cons, hrev]

theorem nodup_keys_revFold : ∀ (hosts : List RevHost) (m : List (List Nat × RevHost)),
    (m.map (fun p => p.1)).Nodup → ((hosts.foldl revStep m).map (fun p => p.1)).Nodup
  | [], _, hm => hm
  | h :: t, m, hm => by
    rw [List.foldl_cons]
    apply nodup_keys_revFold t
    unfold revStep
    by_cases hrev : h.reverse
    · simp only [hrev, Bool.not_true, Bool.false_eq_true, if_false]
      rw [keys_pyDictInsert]
      by_cases hk : zone0.revKey h.ip ∈ m.map (fun p => p.1)
      · rw [if_pos hk]
        exact hm
      · rw [if_neg hk]
        simp [List.nodup_append, hm, hk]
    · simp only [hrev]
      simpa using hm

theorem headD_52_ne_nil (k : List Nat) (h : k.headD 0 = 52) : ∃ rest, k = 52 :: rest := by
  cases k with
  | nil => simp at h
  | cons c cs => exact ⟨cs, by rw [← h]; rfl⟩

theorem headD_54_ne_nil (k : List Nat) (h : k.headD 0 = 54) : ∃ rest, k = 54 :: rest := by
  cases k with
  | nil => simp at h
  | cons c cs => exact ⟨cs, by rw [← h]; rfl⟩

theorem not_keyLe_54_52 (as bs : List Nat) : ¬keyLe (54 :: as) (52 :: bs) := by
  simp [keyLe, lexLeB]

theorem sorted_partition_46 : ∀ l : List (List Nat), l.Sorted keyLe →
    (∀ k ∈ l, k.headD 0 = 52 ∨ k.headD 0 = 54) →
    l = l.filter (fun k => k.headD 0 == 52) ++ l.filter (fun k => k.headD 0 == 54)
  | [], _, _ => rfl
  | a :: t, hs, hall => by
    obtain ⟨hrel, hst⟩ := List.sorted_cons.mp hs
    rcases hall a (List.mem_cons_self a t) with ha | ha
    · have h52 : (a.headD 0 == 52) = true := by
        rw [ha]
        decide
      have h54 : (a.headD 0 == 54) = false := by
        rw [ha]
        decide
      rw [@List.filter_cons_of_pos _ (fun k => k.headD 0 == 52) a t h52,
        @List.filter_cons_of_neg _ (fun k => k.headD 0 == 54) a t (by simp only [h54]; simp),
        List.cons_append]
      have ih := sorted_partition_46 t hst (fun k hk => hall k (List.mem_cons_of_mem a hk))
      exact congrArg (a :: ·) ih
    · have hall54 : ∀ k ∈ a :: t, k.headD 0 = 54 := by
        intro k hk
        rcases List.mem_cons.mp hk with rfl | hkt
        · exact ha
        · rcases hall k (List.mem_cons_of_mem a hkt) with h52 | h54
          · exfalso
            obtain ⟨ra, hra⟩ := headD_54_ne_nil a ha
            obtain ⟨rk, hrk⟩ := headD_52_ne_nil k h52
            have := hrel k hkt
            rw [hra, hrk] at this
            exact not_keyLe_54_52 ra rk this
          · exact h54
      have hf52 : (a :: t).filter (fun k => k.headD 0 == 52) = [] := by
        rw [List.filter_eq_nil_iff]
        intro k hk
        rw [hall54 k hk]
        simp
      have hf54 : (a :: t).filter (fun k => k.headD 0 == 54) = a :: t := by
        rw [List.filter_eq_self]
        intro k hk
        rw [hall54 k hk]
        decide
      rw [hf52, hf54]
      rfl

theorem revKey_headD (ip : IPAddr) :
    (zone0.revKey ip).headD 0 = 52 ∨ (zone0.revKey ip).headD 0 = 54 := by
  cases ip with
  | v4 b => exact Or.inl rfl
  | v6 b => exact Or.inr rfl

/-- Claim C9: in a rendered reverse zone the PTR records appear in
sorted key order, where the key is the version digit (`'4'` = byte 52,
`'6'` = byte 54), a `'-'`, then the packed address bytes: the key list
is sorted, it is identical for any two permutations of the input host
records, and every IPv4 key precedes every IPv6 key (the output splits
as the 52-headed keys followed by the 54-headed keys). -/
theorem c9_ptr_order (hosts hosts' : List RevHost) (hperm : hosts.Perm hosts') :
    (zone0.make_reverse_order hosts).Sorted keyLe
    ∧ zone0.make_reverse_order hosts = zone0.make_reverse_order hosts'
    ∧ zone0.make_reverse_order hosts
        = (zone0.make_reverse_order hosts).filter (fun k => k.headD 0 == 52)
          ++ (zone0.make_reverse_order hosts).filter (fun k => k.headD 0 == 54) := by
  have hsorted : ∀ hs : List RevHost, (zone0.make_reverse_order hs).Sorted keyLe :=
    fun hs => List.sorted_insertionSort keyLe _
  have hmemkeys : ∀ (hs : List RevHost) (x : List Nat),
      x ∈ zone0.make_reverse_order hs ↔
        x ∈ (hs.filter (fun h => h.reverse)).map (fun h => zone0.revKey h.ip) := by
    intro hs x
    unfold zone0.make_reverse_order
    rw [(List.perm_insertionSort keyLe _).mem_iff, revDict_eq_foldl,
      mem_keys_revFold hs [] x]
    simp
  refine ⟨hsorted hosts, ?_, ?_⟩
  · have hnd : ∀ hs : List RevHost, (zone0.make_reverse_order hs).Nodup := by
      intro hs
      unfold zone0.make_reverse_order
      exact (List.perm_insertionSort keyLe _).nodup_iff.mpr
        (by rw [revDict_eq_foldl]; exact nodup_keys_revFold hs [] (by simp))
    have hmm : ∀ x, x ∈ zone0.make_reverse_order hosts
        ↔ x ∈ zone0.make_reverse_order hosts' := by
      intro x
      rw [hmemkeys hosts x, hmemkeys hosts' x]
      exact ((hperm.filter (fun h => h.reverse)).map (fun h => zone0.revKey h.ip)).mem_iff
    exact List.eq_of_perm_of_sorted
      ((List.perm_ext_iff_of_nodup (hnd hosts) (hnd hosts')).mpr hmm)
      (hsorted hosts) (hsorted hosts')
  · apply sorted_partition_46 _ (hsorted hosts)
    intro k hk
    rw [hmemkeys hosts k] at hk
    obtain ⟨h, _, rfl⟩ := List.mem_map.mp hk
    exact revKey_headD h.ip

/-- Claim C9 (witness): the ordering facts evaluated on a concrete pair
of hosts inserted in the IPv6-first order: the IPv4 key still comes
first. -/
theorem c9_ptr_order_witness :
    zone0.make_reverse_order
        [⟨"h6".toList, "example.com".toList, .v6 [0x20, 0x01, 0x0d, 0xb8, 0, 0, 0, 0, 0, 0, 0, 0, 0, 0, 0, 1], true⟩,
         ⟨"h4".toList, "example.com".toList, .v4 [10, 1, 1, 2], true⟩]
      = [[52, 45, 10, 1, 1, 2],
         [54, 45, 0x20, 0x01, 0x0d, 0xb8, 0, 0, 0, 0, 0, 0, 0, 0, 0, 0, 0, 1]]
      ∧ (zone0.make_reverse_order
          [⟨"h6".toList, "example.com".toList, .v6 [0x20, 0x01, 0x0d, 0xb8, 0, 0, 0, 0, 0, 0, 0, 0, 0, 0, 0, 1], true⟩,
           ⟨"h4".toList, "example.com".toList, .v4 [10, 1, 1, 2], true⟩]).Sorted keyLe := by
  constructor
  · rfl
  · exact (c9_ptr_order _ _ (List.Perm.refl _)).1

/-! ## Serial reconciliation (`zonemaker.py` lines 113-144,
`src/src0.py` lines 84-114, `src/db.py` line 193, `src/dynamic.py`
line 220)

`time.time()` is modelled by passing "today" explicitly; serials are
`Int` because the scan in `get_zone_data` starts from `-1`. -/

namespace src0

/-- A calendar date (what `datetime.date.fromtimestamp(time.time())`
provides to `incserial_date`). -/
structure Date where
  year : Nat
  month : Nat
  day : Nat

/-- Python `f'\x7bn:0w\x7d'`: zero-pad the decimal form to width `w`. -/
def padNum (n width : Nat) : Str :=
  let s := natRepr n
  List.replicate (width - s.length) '0' ++ s

/-- `f'\x7bts.year:04\x7d\x7bts.month:02\x7d\x7bts.day:02\x7d'`
(src0.py line 97). -/
def dateStr (d : Date) : Str := padNum d.year 4 ++ padNum d.month 2 ++ padNum d.day 2

/-- `Source.incserial_date` (src0.py lines 84-114): serials above
10^9 are treated as date-stamped `YYYYMMDDnn` — same-day serials bump
the two-digit counter, older ones restart at `<today>00`, serials
beyond today raise; anything at or below 10^9 is incremented by one. -/
def incserial_date (today : Date) (old : Int) : Except String Int :=
  if old > 1000000000 then
    let ser0 := dateStr today
    if (natRepr old.toNat).take ser0.length = ser0 then
      .ok (pyIntVal (ser0 ++ padNum (old.toNat % 100 + 1) 2))
    else if old < (pyIntVal ser0 : Int) * 100 then
      .ok (pyIntVal (ser0 ++ ['0', '0']))
    else
      .error "Old serial is in the future"
  else
    .ok (old + 1)

end src0

namespace zonemaker

/-- Which `incserial` policy a source uses: `DB.incserial` delegates to
`incserial_date` (db.py lines 193-201), `Dynamic.incserial` just adds
one (dynamic.py lines 220-230). -/
inductive SrcKind
  | db
  | dynamic
deriving DecidableEq

/-- What `get_zone_data` consumes from one source: the serial of its
`get_data()` result (`none` when the result is falsy), and its
`has_changed()` answer. -/
structure SourceModel where
  kind : SrcKind
  data : Option Int
  changed : Bool
deriving DecidableEq

/-- The `incserial` dispatch over the two source kinds. -/
def incserial (today : src0.Date) (kind : SrcKind) (old : Int) : Except String Int :=
  match kind with
  | .db => src0.incserial_date today old
  | .dynamic => .ok (old + 1)

/-- The old-serial scan of `get_zone_data` (zonemaker.py lines 115-125):
`max_idx`/`serial` start at `-1`; sources with falsy data are skipped;
a strictly greater serial takes over (so the *first* maximiser owns the
serial). -/
def serialScanAux : List SourceModel → Nat → Int → Int → Int × Int
  | [], _, maxIdx, serial => (maxIdx, serial)
  | s :: rest, idx, maxIdx, serial =>
    match s.data with
    | none => serialScanAux rest (idx + 1) maxIdx serial
    | some sr =>
      if sr > serial then serialScanAux rest (idx + 1) (Int.ofNat idx) sr
      else serialScanAux rest (idx + 1) maxIdx serial

def serialScan (sources : List SourceModel) : Int × Int :=
  serialScanAux sources 0 (-1) (-1)

/-- Python list indexing with negative indexes (`sources[max_idx]` with
`max_idx = -1` is the last element). -/
def pyGet (l : List SourceModel) (i : Int) : Option SourceModel :=
  if 0 ≤ i then l.get? i.toNat else l.get? (l.length - (-i).toNat)

/-- The serial-reconciliation slice of `ZoneMaker.get_zone_data`
(zonemaker.py lines 86-144): `none` when there are no sources; otherwise
the final serial together with the list of `set_serial` calls (one per
source, all with the new serial) made on the increment path. -/
def get_zone_data_serial (today : src0.Date) (incflag : Bool)
    (sources : List SourceModel) : Except String (Option (Int × List Int)) :=
  if sources.isEmpty then .ok none
  else
    let scan := serialScan sources
    let changed := sources.any (fun s => s.changed)
    if incflag && changed then
      match pyGet sources scan.1 with
      | none => .error "IndexError: list index out of range"
      | some owner => do
        let ser ← incserial today owner.kind scan.2
        .ok (some (ser, sources.map (fun _ => ser)))
    else .ok (some (scan.2, []))

end zonemaker

/-- The serial the claim predicts after an increment: same-day prefix
bumps by one, otherwise today's date followed by `00`. -/
def claimNewSerial (today : src0.Date) (old : Int) : Int :=
  if (natRepr old.toNat).take (src0.dateStr today).length = src0.dateStr today
  then old + 1
  else (pyIntVal (src0.dateStr today) : Int) * 100

theorem foldl_digits_from (s : Str) :
    ∀ acc : Nat, s.foldl (fun acc c => acc * 10 + (c.toNat - 48)) acc
      = acc * 10 ^ s.length + s.foldl (fun acc c => acc * 10 + (c.toNat - 48)) 0 := by
  induction s with
  | nil =>
    intro acc
    simp
  | cons c cs ih =>
    intro acc
    rw [List.foldl_cons, List.foldl_cons, ih (acc * 10 + (c.toNat - 48)),
      ih (0 * 10 + (c.toNat - 48))]
    simp [List.length_cons, pow_succ]
    ring

theorem pyIntVal_append (A B : Str) :
    pyIntVal (A ++ B) = pyIntVal A * 10 ^ B.length + pyIntVal B := by
  unfold pyIntVal
  rw [List.foldl_append, foldl_digits_from B (A.foldl _ 0)]

theorem natReprAux_len : ∀ (fuel n k : Nat), 0 < k → n < 10 ^ k →
    (natReprAux fuel n).length ≤ k := by
  intro fuel
  induction fuel with
  | zero =>
    intro n k hk _
    simp [natReprAux]
  | succ f ih =>
    intro n k hk hn
    unfold natReprAux
    by_cases h10 : n < 10
    · rw [if_pos h10]
      simpa using hk
    · rw [if_neg h10]
      have hk2 : 2 ≤ k := by
        by_contra hcon
        have : k = 1 := by omega
        subst this
        simp at hn
        omega
      have hdiv : n / 10 < 10 ^ (k - 1) := by
        have : 10 ^ k = 10 ^ (k - 1) * 10 := by
          rw [← pow_succ]
          congr 1
          omega
        rw [this] at hn
        omega
      have := ih (n / 10) (k - 1) (by omega) hdiv
      simp only [List.length_append, List.length_cons, List.length_nil]
      omega

theorem pyIntVal_zeros : ∀ k : Nat, pyIntVal (List.replicate k '0') = 0 := by
  intro k
  induction k with
  | zero => rfl
  | succ m ih =>
    unfold pyIntVal at *
    rw [List.replicate_succ, List.foldl_cons]
    simpa using ih

theorem padNum_spec (m w : Nat) (hw : 0 < w) (hm : m < 10 ^ w) :
    (src0.padNum m w).length = w ∧ pyIntVal (src0.padNum m w) = m := by
  have hlen : (natRepr m).length ≤ w := natReprAux_len (m + 1) m w hw hm
  constructor
  · simp only [src0.padNum, List.length_append, List.length_replicate]
    omega
  · rw [src0.padNum, pyIntVal_append, pyIntVal_zeros, (natRepr_spec m).2.2]
    simp

theorem serialScanAux_spec : ∀ (ss : List zonemaker.SourceModel) (idx : Nat) (mi cur : Int),
    cur ≤ (zonemaker.serialScanAux ss idx mi cur).2
    ∧ (∀ s ∈ ss, ∀ v, s.data = some v → v ≤ (zonemaker.serialScanAux ss idx mi cur).2)
    ∧ ((zonemaker.serialScanAux ss idx mi cur).2 = cur
        ∨ ∃ s ∈ ss, s.data = some (zonemaker.serialScanAux ss idx mi cur).2)
  | [], idx, mi, cur => by
    refine ⟨le_refl cur, ?_, Or.inl rfl⟩
    intro s hs
    simp at hs
  | s :: rest, idx, mi, cur => by
    cases hd : s.data with
    | none =>
      have ih := serialScanAux_spec rest (idx + 1) mi cur
      have hstep : zonemaker.serialScanAux (s :: rest) idx mi cur
          = zonemaker.serialScanAux rest (idx + 1) mi cur := by
        simp only [zonemaker.serialScanAux, hd]
      rw [hstep]
      refine ⟨ih.1, ?_, ?_⟩
      · intro t ht v hv
        rcases List.mem_cons.mp ht with rfl | htr
        · rw [hd] at hv
          exact absurd hv (by simp)
        · exact ih.2.1 t htr v hv
      · rcases ih.2.2 with h | ⟨t, ht, hv⟩
        · exact Or.inl h
        · exact Or.inr ⟨t, List.mem_cons_of_mem s ht, hv⟩
    | some sr =>
      by_cases hgt : sr > cur
      · have ih := serialScanAux_spec rest (idx + 1) (Int.ofNat idx) sr
        have hstep : zonemaker.serialScanAux (s :: rest) idx mi cur
            = zonemaker.serialScanAux rest (idx + 1) (Int.ofNat idx) sr := by
          simp only [zonemaker.serialScanAux, hd]
          rw [if_pos hgt]
        rw [hstep]
        refine ⟨le_trans (le_of_lt hgt) ih.1, ?_, ?_⟩
        · intro t ht v hv
          rcases List.mem_cons.mp ht with rfl | htr
          · rw [hd] at hv
            injection hv with hv
            rw [← hv]
            exact ih.1
          · exact ih.2.1 t htr v hv
        · rcases ih.2.2 with h | ⟨t, ht, hv⟩
          · exact Or.inr ⟨s, List.mem_cons_self s rest, by rw [hd, h]⟩
          · exact Or.inr ⟨t, List.mem_cons_of_mem s ht, hv⟩
      · have ih := serialScanAux_spec rest (idx + 1) mi cur
        have hstep : zonemaker.serialScanAux (s :: rest) idx mi cur
            = zonemaker.serialScanAux rest (idx + 1) mi cur := by
          simp only [zonemaker.serialScanAux, hd]
          rw [if_neg hgt]
        rw [hstep]
        refine ⟨ih.1, ?_, ?_⟩
        · intro t ht v hv
          rcases List.mem_cons.mp ht with rfl | htr
          · rw [hd] at hv
            injection hv with hv
            rw [← hv]
            exact le_trans (by omega) ih.1
          · exact ih.2.1 t htr v hv
        · rcases ih.2.2 with h | ⟨t, ht, hv⟩
          · exact Or.inl h
          · exact Or.inr ⟨t, List.mem_cons_of_mem s ht, hv⟩

/-- Claim C8 (counterexample): a database source with old serial 500
that reports a change, regenerated with increment on 2026-10-12: the
code produces 501 (the `old <= 10^9` branch of `incserial_date` just
adds one), *not* the date-stamped `2026101200` the claim's rule
predicts. -/
theorem c8_counterexample :
    zonemaker.get_zone_data_serial ⟨2026, 10, 12⟩ true
        [⟨.db, some 500, true⟩]
      = .ok (some (501, [501]))
    ∧ claimNewSerial ⟨2026, 10, 12⟩ 500 = 2026101200
    ∧ (501 : Int) ≠ 2026101200 := by
  refine ⟨by rfl, by decide, by decide⟩

/-- Claim C8 (amended): the old serial is the maximum over the sources
with data; when regeneration-with-increment is requested and some source
reports a change, the serial is advanced by the *owning* (first-maximal)
source's own `incserial` — the database source's `incserial_date`
applies the date-stamped scheme only to serials above 10^9 (same-day
prefix bumps the two-digit tail, an older date restarts at `<today>00`,
a serial beyond today raises) and adds one otherwise, while the dynamic
source always adds one — and the new serial is handed to every source's
`set_serial`. -/
theorem c8_serial_reconciliation (today : src0.Date) (sources : List zonemaker.SourceModel)
    (old : Int) (owner : zonemaker.SourceModel)
    (hne : sources ≠ []) (hown : zonemaker.pyGet sources (zonemaker.serialScan sources).1
      = some owner) (hch : sources.any (fun s => s.changed) = true) :
    (∀ s ∈ sources, ∀ v, s.data = some v → v ≤ (zonemaker.serialScan sources).2)
    ∧ ((zonemaker.serialScan sources).2 = -1
        ∨ ∃ s ∈ sources, s.data = some (zonemaker.serialScan sources).2)
    ∧ zonemaker.get_zone_data_serial today false sources
        = .ok (some ((zonemaker.serialScan sources).2, []))
    ∧ zonemaker.get_zone_data_serial today true sources
        = (zonemaker.incserial today owner.kind (zonemaker.serialScan sources).2).map
            (fun ser => some (ser, sources.map (fun _ => ser)))
    ∧ (old ≤ 1000000000 → src0.incserial_date today old = .ok (old + 1))
    ∧ (old > 1000000000 →
        (natRepr old.toNat).take (src0.dateStr today).length = src0.dateStr today →
        old.toNat % 100 + 1 < 100 →
        src0.incserial_date today old
          = .ok ((pyIntVal (src0.dateStr today) * 100 + (old.toNat % 100 + 1) : Nat)))
    ∧ (old > 1000000000 →
        (natRepr old.toNat).take (src0.dateStr today).length ≠ src0.dateStr today →
        old < (pyIntVal (src0.dateStr today) : Int) * 100 →
        src0.incserial_date today old = .ok ((pyIntVal (src0.dateStr today) : Int) * 100))
    ∧ (old > 1000000000 →
        (natRepr old.toNat).take (src0.dateStr today).length ≠ src0.dateStr today →
        ¬old < (pyIntVal (src0.dateStr today) : Int) * 100 →
        src0.incserial_date today old = .error "Old serial is in the future")
    ∧ (∀ o : Int, zonemaker.incserial today .dynamic o = .ok (o + 1)) := by
  have hscan := serialScanAux_spec sources 0 (-1) (-1)
  have hempty : sources.isEmpty = false :=
    Bool.eq_false_iff.mpr (fun h => hne (List.isEmpty_iff.mp h))
  refine ⟨hscan.2.1, ?_, ?_, ?_, ?_, ?_, ?_, ?_, fun o => rfl⟩
  · rcases hscan.2.2 with h | h
    · exact Or.inl h
    · exact Or.inr h
  · unfold zonemaker.get_zone_data_serial
    rw [hempty]
    simp
  · unfold zonemaker.get_zone_data_serial
    rw [hempty]
    simp only [Bool.false_eq_true, if_false, hch, Bool.and_self, if_true, hown]
    cases zonemaker.incserial today owner.kind (zonemaker.serialScan sources).2 with
    | ok v => rfl
    | error e => rfl
  · intro hle
    unfold src0.incserial_date
    rw [if_neg (by omega)]
  · intro hgt hlead hlt
    unfold src0.incserial_date
    rw [if_pos hgt]
    simp only [hlead, if_pos]
    congr 1
    have hpad := padNum_spec (old.toNat % 100 + 1) 2 (by omega) (by simpa using hlt)
    rw [pyIntVal_append, hpad.1, hpad.2]
    push_cast
    ring
  · intro hgt hlead hlt
    unfold src0.incserial_date
    rw [if_pos hgt, if_neg hlead, if_pos hlt]
    congr 1
    rw [pyIntVal_append]
    simp [pyIntVal]
  · intro hgt hlead hlt
    unfold src0.incserial_date
    rw [if_pos hgt, if_neg hlead, if_neg hlt]

/-- A concrete pair of sources for the C8 witness: a DB source with
date-stamped serial 2026101203 and a changed dynamic source whose zone
file carries 2026101205. -/
def srcsExample : List zonemaker.SourceModel :=
  [⟨.db, some 2026101203, false⟩, ⟨.dynamic, some 2026101205, true⟩]

/-- Claim C8 (witness): the reconciliation facts applied to a concrete
run over `srcsExample`; the dynamic source owns the maximum, so its
plus-one policy applies and the new serial goes to both sources. -/
theorem c8_serial_reconciliation_witness :
    zonemaker.get_zone_data_serial ⟨2026, 10, 12⟩ true srcsExample
      = (zonemaker.incserial ⟨2026, 10, 12⟩ .dynamic
          (zonemaker.serialScan srcsExample).2).map
          (fun ser => some (ser, srcsExample.map (fun _ => ser))) :=
  (c8_serial_reconciliation ⟨2026, 10, 12⟩ srcsExample
    0 ⟨.dynamic, some 2026101205, true⟩
    (by decide) (by decide) (by decide)).2.2.2.1

/-- Claim C3 (witness): the general digest shape applied at the concrete
owner and ZSK key of the spec's example. -/
theorem c3_ds_sigs_witness :
    dnssec.calc_ds_sigs "test2.example.com".toList 256 3 8 zskKey
      = .ok { sha1 := sha1Hex (wireName "test2.example.com".toList
                ++ dnssec.packHBB 256 3 8
                ++ dnssec.b64decode (zskKey.filter (fun c => !(c == ' ')))),
              sha256 := sha256Hex (wireName "test2.example.com".toList
                ++ dnssec.packHBB 256 3 8
                ++ dnssec.b64decode (zskKey.filter (fun c => !(c == ' ')))) } :=
  (c3_ds_sigs "test2.example.com".toList 256 3 8 zskKey (by decide) (by decide)).1


/- ===== C7: parser failure policy (parsing.py cleanup_line, common.py
compact_spaces / merge_quotes, line_ends_in_parentheses, merge_multiline,
parse_line) ===== -/

namespace common

/-- `common.compact_spaces` scan loop (common.py lines 266-285): collapse
whitespace runs outside quotes to a single space, keep quoted text intact. -/
def compactAux : Str → Bool → Bool → Str
  | [], _, _ => []
  | x :: r, inq, added =>
    if x = '"' then x :: compactAux r (!inq) false
    else if inq then x :: compactAux r inq added
    else if x = '\t' ∨ x = '\n' ∨ x = '\r' ∨ x = ' ' then
      (if added then compactAux r inq true else ' ' :: compactAux r inq true)
    else x :: compactAux r inq false

/-- `common.compact_spaces` (common.py lines 261-285). -/
def compact_spaces (st : Str) : Str := compactAux (pyStrip st) false false

/-- `common.merge_quotes` loop (common.py lines 291-307): `acc` is the
reversed output; `'" '`-then-`'"'` sequences are collapsed (Python
`ret[-2:] == '\x22 '` check); an open quote at the end aborts. -/
def mergeQuotesAux : Str → Bool → Str → Except String Str
  | [], inq, acc => if inq then .error "String ended with open quotes" else .ok acc.reverse
  | x :: r, inq, acc =>
    if x = '"' then
      if inq then mergeQuotesAux r false (x :: acc)
      else if acc.take 2 = [' ', '"'] then mergeQuotesAux r true (acc.drop 2)
      else mergeQuotesAux r true (x :: acc)
    else mergeQuotesAux r inq (x :: acc)

/-- `common.merge_quotes` (common.py lines 288-309). -/
def merge_quotes (st : Str) : Except String Str := mergeQuotesAux (compact_spaces st) false []

end common

namespace parsing

/-- Comment-removal scan of `parsing.cleanup_line` (parsing.py lines 68-79):
stop at the first `';'` that is not inside a quoted block. -/
def cleanupScan : Str → Bool → Str
  | [], _ => []
  | ch :: rest, in_st =>
    if !in_st && ch == ';' then []
    else ch :: cleanupScan rest (if ch = '"' then !in_st else in_st)

/-- `parsing.cleanup_line` (parsing.py lines 63-81): remove unquoted
comments (only scanning when a `';'` is present, as the source does),
then strip surrounding whitespace. -/
def cleanup_line (line0 : Str) : Str :=
  pyStrip (if line0.contains ';' then cleanupScan line0 false else line0)

/-- Loop of `parsing.line_ends_in_parentheses` (parsing.py lines 84-116),
with state (remaining input, in_quotes, in_parentheses); Python\'s
`vdns.common.abort` calls are the `.error` results. -/
def lepAux : Str → Bool → Bool → Except String Bool
  | [], inq, inp => if inq then .error "Line ended up with open quotes" else .ok inp
  | x :: r, inq, inp =>
    if inq ∧ x ≠ '"' then lepAux r inq inp
    else if x = '"' then lepAux r (!inq) inp
    else if inp then
      if x = ')' then lepAux r inq false
      else if x = '(' then .error "Found ( while already in parentheses"
      else lepAux r inq inp
    else
      if x = '(' then lepAux r inq true
      else if x = ')' then .error "Found ) without being in parentheses"
      else lepAux r inq inp

/-- `parsing.line_ends_in_parentheses` (parsing.py lines 84-116). -/
def line_ends_in_parentheses (line : Str) (inp : Bool) : Except String Bool :=
  lepAux line false inp

/-- Character loop of `parsing.merge_multiline` (parsing.py lines 133-160):
`acc` is the reversed output; parenthesis characters are dropped from the
output, newlines sanity-check quotes and become spaces. -/
def mmAux : Str → Bool → Bool → Str → Except String Str
  | [], _, _, acc => .ok acc.reverse
  | x :: r, inq, inp, acc =>
    if x = '\n' then
      if inq then .error "Line ended up with open quotes" else mmAux r inq inp (' ' :: acc)
    else if inq ∧ x ≠ '"' then mmAux r inq inp (x :: acc)
    else if x = '"' then mmAux r (!inq) inp (x :: acc)
    else if x = '(' then
      if inp then .error "Found ( within (" else mmAux r inq true acc
    else if x = ')' then
      if inp then mmAux r inq false acc else .error "Found ) without ("
    else if x = '\r' then mmAux r inq inp (' ' :: acc)
    else mmAux r inq inp (x :: acc)

/-- The single string scanned by `parsing.merge_multiline` (parsing.py
lines 125-131): each input line cleaned and space-compacted, then all of
them joined with `'\n'`. -/
def mergedChars (lines0 : List Str) : Str :=
  List.intercalate ['\n'] (lines0.map (fun l => common.compact_spaces (cleanup_line l)))

/-- `parsing.merge_multiline` (parsing.py lines 119-167). -/
def merge_multiline (lines0 : List Str) (mq : Bool) : Except String Str :=
  match mmAux (mergedChars lines0) false false [] with
  | .error e => .error e
  | .ok ret => if mq then common.merge_quotes ret else .ok (common.compact_spaces ret)

/-- `parsing.ParsedLine` (parsing.py lines 15-25). -/
structure ParsedLine where
  addr1 : Option Str
  ttl : Option Str
  rr : Str
  addr2 : Str
deriving DecidableEq

/-- The classification loop of `parsing.parse_line` (parsing.py lines
227-238) over the tokens before the RR keyword: `IN` tokens are skipped,
the first TTL-shaped token (while none is recorded) becomes the ttl, one
further token becomes addr1, and any token beyond that makes the whole
parse return `None`. -/
def classifyLead : List Str → Option Str → Option Str → Option (Option Str × Option Str)
  | [], ttl, a1 => some (ttl, a1)
  | it :: rest, ttl, a1 =>
    if it = "IN".toList then classifyLead rest ttl a1
    else if ttl.isNone ∧ is_ttl it = true then classifyLead rest (some it) a1
    else if a1.isNone then classifyLead rest ttl (some it)
    else none

/-- `parsing.parse_line` (parsing.py lines 196-240). -/
def parse_line (line0 : Str) : Option ParsedLine :=
  if (cleanup_line line0).isEmpty then none
  else if (pySplitWs (cleanup_line line0)).headD [] = "RRSIG".toList
      ∨ (pySplitWs (cleanup_line line0)).headD [] = "NSEC".toList then none
  else
    match (pySplitWs (cleanup_line line0)).findIdx? (fun it => RRS.contains it) with
    | none => none
    | some rridx =>
      match classifyLead ((pySplitWs (cleanup_line line0)).take rridx) none none with
      | none => none
      | some p =>
        some ⟨p.2, p.1, (pySplitWs (cleanup_line line0)).getD rridx [],
              (pySplitWsMax (rridx + 1) (cleanup_line line0)).getLastD []⟩

/-- State-only abort scan for `merge_multiline`: `none` when the character
loop aborts (newline inside quotes, nested `'('`, or `')'` without an open
group), otherwise `some` of the final in_quotes state. -/
def mmScan : Str → Bool → Bool → Option Bool
  | [], inq, _ => some inq
  | x :: r, inq, inp =>
    if x = '\n' then
      if inq then none else mmScan r inq inp
    else if inq ∧ x ≠ '"' then mmScan r inq inp
    else if x = '"' then mmScan r (!inq) inp
    else if x = '(' then
      if inp then none else mmScan r inq true
    else if x = ')' then
      if inp then mmScan r inq false else none
    else mmScan r inq inp

/-- Number of tokens that are neither `IN` nor TTL-shaped. -/
def unknownCount (toks : List Str) : Nat :=
  (toks.filter (fun it => !(it == "IN".toList) && !is_ttl it)).length

end parsing

/-- Is this `Except` result an error? -/
def isErrS : Except String Str → Bool
  | .error _ => true
  | .ok _ => false

theorem count_dropWhile_quote : ∀ l : Str, (l.dropWhile pyWs).count '"' = l.count '"' := by
  intro l
  induction l with
  | nil => rfl
  | cons x t ih =>
    by_cases hx : pyWs x = true
    · have hxq : x ≠ '"' := by
        intro hcontr
        rw [hcontr] at hx
        exact absurd hx (by decide)
      simp [List.dropWhile_cons, hx, ih, List.count_cons, hxq]
    · simp [List.dropWhile_cons, hx]

theorem count_pyStrip_quote (s : Str) : (pyStrip s).count '"' = s.count '"' := by
  unfold pyStrip
  rw [List.count_reverse, count_dropWhile_quote, List.count_reverse, count_dropWhile_quote]

theorem count_compactAux_quote : ∀ (s : Str) (inq added : Bool),
    (common.compactAux s inq added).count '"' = s.count '"' := by
  intro s
  induction s with
  | nil => intro inq added; rfl
  | cons x t ih =>
    intro inq added
    by_cases hq : x = '"'
    · subst hq; simp [common.compactAux, List.count_cons, ih]
    · by_cases hinq : inq = true
      · simp [common.compactAux, hq, hinq, List.count_cons, ih]
      · by_cases hws : x = '\t' ∨ x = '\n' ∨ x = '\r' ∨ x = ' '
        · by_cases hadd : added = true
          · simp [common.compactAux, hq, hinq, hws, hadd, ih, List.count_cons]
          · simp [common.compactAux, hq, hinq, hws, hadd, ih, List.count_cons]
        · simp [common.compactAux, hq, hinq, hws, ih, List.count_cons]

theorem count_compact_quote (st : Str) :
    (common.compact_spaces st).count '"' = st.count '"' := by
  unfold common.compact_spaces; rw [count_compactAux_quote, count_pyStrip_quote]

theorem mergeQuotesAux_err : ∀ (s : Str) (inq : Bool) (acc : Str),
    (isErrS (common.mergeQuotesAux s inq acc) = true
      ↔ (s.count '"' + (if inq = true then 1 else 0)) % 2 = 1) := by
  intro s
  induction s with
  | nil =>
    intro inq acc
    cases inq <;> simp [common.mergeQuotesAux, isErrS]
  | cons x t ih =>
    intro inq acc
    by_cases hq : x = '"'
    · subst hq
      cases inq with
      | true =>
        rw [show common.mergeQuotesAux ('"' :: t) true acc
              = common.mergeQuotesAux t false ('"' :: acc) from rfl,
            ih false ('"' :: acc)]
        simp [List.count_cons]
        omega
      | false =>
        by_cases htk : acc.take 2 = [' ', '"']
        · rw [show common.mergeQuotesAux ('"' :: t) false acc
              = if acc.take 2 = [' ', '"'] then common.mergeQuotesAux t true (acc.drop 2)
                else common.mergeQuotesAux t true ('"' :: acc) from rfl,
              if_pos htk, ih true (acc.drop 2)]
          simp [List.count_cons]
        · rw [show common.mergeQuotesAux ('"' :: t) false acc
              = if acc.take 2 = [' ', '"'] then common.mergeQuotesAux t true (acc.drop 2)
                else common.mergeQuotesAux t true ('"' :: acc) from rfl,
              if_neg htk, ih true ('"' :: acc)]
          simp [List.count_cons]
    · simp only [common.mergeQuotesAux, if_neg hq]
      rw [ih inq (x :: acc)]
      simp [List.count_cons, hq]

theorem merge_quotes_err (st : Str) :
    isErrS (common.merge_quotes st) = true ↔ st.count '"' % 2 = 1 := by
  unfold common.merge_quotes
  rw [mergeQuotesAux_err]
  simp [count_compact_quote]

theorem mmAux_err : ∀ (r : Str) (inq inp : Bool) (acc : Str),
    isErrS (parsing.mmAux r inq inp acc) = (parsing.mmScan r inq inp).isNone := by
  intro r
  induction r with
  | nil => intro inq inp acc; rfl
  | cons x t ih =>
    intro inq inp acc
    simp only [parsing.mmAux, parsing.mmScan]
    split_ifs <;> first | rfl | exact ih _ _ _

theorem mmAux_count : ∀ (r : Str) (inq inp : Bool) (acc out : Str),
    parsing.mmAux r inq inp acc = .ok out → out.count '"' = acc.count '"' + r.count '"' := by
  intro r
  induction r with
  | nil =>
    intro inq inp acc out h
    simp only [parsing.mmAux, Except.ok.injEq] at h
    subst h
    simp [List.count_reverse]
  | cons x t ih =>
    intro inq inp acc out h
    simp only [parsing.mmAux] at h
    split_ifs at h with h1 h2 h3 h4 h5 h6 h7 h8 h9
    · have hrec := ih _ _ _ _ h
      subst h1
      simp [List.count_cons] at hrec ⊢
      omega
    · have hrec := ih _ _ _ _ h
      simp [List.count_cons, h3.2] at hrec ⊢
      omega
    · have hrec := ih _ _ _ _ h
      subst h4
      simp [List.count_cons] at hrec ⊢
      omega
    · have hrec := ih _ _ _ _ h
      subst h5
      simp [List.count_cons] at hrec ⊢
      omega
    · have hrec := ih _ _ _ _ h
      subst h7
      simp [List.count_cons] at hrec ⊢
      omega
    · have hrec := ih _ _ _ _ h
      subst h9
      simp [List.count_cons] at hrec ⊢
      omega
    · have hrec := ih _ _ _ _ h
      simp [List.count_cons, h4] at hrec ⊢
      omega

theorem mmScan_parity : ∀ (r : Str) (inq inp : Bool) (f : Bool),
    parsing.mmScan r inq inp = some f →
    (f = true ↔ (r.count '"' + (if inq = true then 1 else 0)) % 2 = 1) := by
  intro r
  induction r with
  | nil =>
    intro inq inp f h
    simp only [parsing.mmScan, Option.some.injEq] at h
    subst h
    cases inq <;> simp
  | cons x t ih =>
    intro inq inp f h
    simp only [parsing.mmScan] at h
    split_ifs at h with h1 h2 h3 h4 h5 h6 h7 h8
    · rw [ih _ _ _ h]
      subst h1
      simp [List.count_cons]
    · rw [ih _ _ _ h]
      simp [List.count_cons, h3.2]
    · rw [ih _ _ _ h]
      subst h4
      cases inq <;> simp [List.count_cons] <;> omega
    · rw [ih _ _ _ h]
      subst h5
      simp [List.count_cons]
    · rw [ih _ _ _ h]
      subst h7
      simp [List.count_cons]
    · rw [ih _ _ _ h]
      simp [List.count_cons, h4]

theorem unknownCount_cons (it : Str) (rest : List Str) :
    parsing.unknownCount rest ≤ parsing.unknownCount (it :: rest)
      ∧ parsing.unknownCount (it :: rest) ≤ parsing.unknownCount rest + 1 := by
  unfold parsing.unknownCount
  rw [List.filter_cons]
  split <;> simp

theorem unknownCount_cons_skip (it : Str) (rest : List Str)
    (h : it = "IN".toList ∨ parsing.is_ttl it = true) :
    parsing.unknownCount (it :: rest) = parsing.unknownCount rest := by
  unfold parsing.unknownCount
  rw [List.filter_cons_of_neg]
  rcases h with h | h <;> simp [h]

theorem classifyLead_unknown : ∀ (toks : List Str) (ttl a1 : Option Str),
    (2 ≤ parsing.unknownCount toks ∨ (1 ≤ parsing.unknownCount toks ∧ a1.isSome = true)) →
    parsing.classifyLead toks ttl a1 = none := by
  intro toks
  induction toks with
  | nil =>
    intro ttl a1 h
    exfalso
    have h0 : parsing.unknownCount [] = 0 := rfl
    rcases h with h | ⟨h, _⟩ <;> omega
  | cons it rest ih =>
    intro ttl a1 h
    simp only [parsing.classifyLead]
    by_cases hIN : it = "IN".toList
    · rw [if_pos hIN]
      apply ih
      rw [unknownCount_cons_skip it rest (Or.inl hIN)] at h
      exact h
    · rw [if_neg hIN]
      by_cases httl : ttl.isNone = true ∧ parsing.is_ttl it = true
      · rw [if_pos httl]
        apply ih
        rw [unknownCount_cons_skip it rest (Or.inr httl.2)] at h
        exact h
      · rw [if_neg httl]
        by_cases ha1 : a1.isNone = true
        · rw [if_pos ha1]
          apply ih
          right
          have ha1n : a1 = none := Option.isNone_iff_eq_none.mp ha1
          refine ⟨?_, by simp⟩
          rcases h with h2 | ⟨_, hsome⟩
          · have hb := (unknownCount_cons it rest).2
            omega
          · rw [ha1n] at hsome
            simp at hsome
        · rw [if_neg ha1]

/-- C7 counterexample: the claimed "if and only if" direction fails.
The input `"a ("` ends with an open parenthesis — the code\'s own
parenthesis tracker `line_ends_in_parentheses` confirms the group is
still open at the end — yet `merge_multiline` does not abort: it
returns the merged line successfully (with or without quote merging).
Likewise `"\x22a"` ends with an open quote, yet without quote merging
`merge_multiline` succeeds (the quote check only fires at a newline or,
with quote merging on, at the very end). -/
theorem c7_counterexample :
    parsing.line_ends_in_parentheses "a (".toList false = .ok true
    ∧ parsing.merge_multiline ["a (".toList] false = .ok "a".toList
    ∧ parsing.merge_multiline ["a (".toList] true = .ok "a".toList
    ∧ parsing.merge_multiline ["\"a".toList] false = .ok "\"a".toList := by
  exact ⟨rfl, rfl, rfl, rfl⟩

/-- C7 (amended): (1) `merge_multiline` aborts exactly when the state
scan of the joined cleaned lines aborts — a newline reached inside
quotes, an unquoted `'('` while a group is open, or an unquoted `')'`
with no open group — or when quote merging is requested and the scan
ends in open-quote state; in particular an input that merely ends with
an open parenthesis does not abort. (2) `parse_line` never aborts: if
the tokens before the RR-type keyword contain two or more tokens that
are neither `IN` nor TTL-shaped, the line is skipped by returning
`none`. -/
theorem c7_failure_policy (lines : List Str) (mq : Bool) (line : Str) (rridx : Nat) :
    (isErrS (parsing.merge_multiline lines mq)
        = ((parsing.mmScan (parsing.mergedChars lines) false false).isNone
            || (mq && (parsing.mmScan (parsing.mergedChars lines) false false).getD false)))
    ∧ ((pySplitWs (parsing.cleanup_line line)).findIdx?
          (fun it => parsing.RRS.contains it) = some rridx →
        2 ≤ parsing.unknownCount ((pySplitWs (parsing.cleanup_line line)).take rridx) →
        parsing.parse_line line = none) := by
  constructor
  · unfold parsing.merge_multiline
    cases h : parsing.mmAux (parsing.mergedChars lines) false false [] with
    | error e =>
      have he := mmAux_err (parsing.mergedChars lines) false false []
      rw [h] at he
      simp [isErrS] at he
      simp [isErrS, he]
    | ok ret =>
      have he := mmAux_err (parsing.mergedChars lines) false false []
      rw [h] at he
      simp [isErrS] at he
      cases hs : parsing.mmScan (parsing.mergedChars lines) false false with
      | none => rw [hs] at he; simp at he
      | some f =>
        cases mq with
        | false => simp [isErrS, hs]
        | true =>
          have hc := mmAux_count _ _ _ _ _ h
          have hp := mmScan_parity _ _ _ _ hs
          have hcJ : ret.count '"' = (parsing.mergedChars lines).count '"' := by simpa using hc
          have hpf : f = true ↔ ret.count '"' % 2 = 1 := by
            rw [hcJ]
            simpa using hp
          have hgoal : isErrS (common.merge_quotes ret) = f := by
            cases f with
            | true => exact (merge_quotes_err ret).mpr (hpf.mp rfl)
            | false =>
              cases hE : isErrS (common.merge_quotes ret) with
              | false => rfl
              | true => exact absurd (hpf.mpr ((merge_quotes_err ret).mp hE)) (by decide)
          simp only [hs, Option.isNone_some, Bool.false_or, Bool.true_and, Option.getD_some]
          simpa using hgoal
  · intro hidx hcnt
    by_cases hemp : (parsing.cleanup_line line).isEmpty = true
    · unfold parsing.parse_line
      rw [if_pos hemp]
    · by_cases hsig : (pySplitWs (parsing.cleanup_line line)).headD [] = "RRSIG".toList
          ∨ (pySplitWs (parsing.cleanup_line line)).headD [] = "NSEC".toList
      · unfold parsing.parse_line
        rw [if_neg hemp, if_pos hsig]
      · have hcl := classifyLead_unknown
          ((pySplitWs (parsing.cleanup_line line)).take rridx) none none (Or.inl hcnt)
        unfold parsing.parse_line
        rw [if_neg hemp, if_neg hsig]
        simp only [hidx, hcl]

/-- Witness for `c7_failure_policy` at a concrete input: the merge part
for the line `"a ("` with quote merging, and the skip part for the line
`"x y z A 1.2.3.4"`, which has three unrecognized tokens before `A`. -/
theorem c7_failure_policy_witness :
    (isErrS (parsing.merge_multiline ["a (".toList] true)
        = ((parsing.mmScan (parsing.mergedChars ["a (".toList]) false false).isNone
            || (true && (parsing.mmScan (parsing.mergedChars ["a (".toList]) false false).getD
                  false)))
    ∧ parsing.parse_line "x y z A 1.2.3.4".toList = none := by
  exact ⟨(c7_failure_policy ["a (".toList] true "x y z A 1.2.3.4".toList 3).1,
         (c7_failure_policy ["a (".toList] true "x y z A 1.2.3.4".toList 3).2
           (by rfl) (by decide)⟩


/- ===== C1: zone rendering (zone.py Zone.make, zone0.py) and zone
parsing (zoneparser.py ZoneParser.read) ===== -/

namespace zone0

/-- A host record as consumed by `zone0.mkrecord` (`a`/`aaaa` branches,
zone0.py lines 232-237): `v4` models `rec[\'ip\'].ip.version == 4` and
`ip_str` the textual address. -/
structure HostRec where
  hostname : Str
  ip_str : Str
  v4 : Bool
  reverse : Bool
  ttl : Option Nat
deriving DecidableEq

structure NSRec where
  hostname : Str
  ns : Str
  ttl : Option Nat
deriving DecidableEq

structure MXRec where
  hostname : Str
  priority : Nat
  mx : Str
  ttl : Option Nat
deriving DecidableEq

structure TXTRec where
  hostname : Str
  txt : Str
  ttl : Option Nat
deriving DecidableEq

structure CNAMERec where
  hostname : Str
  hostname0 : Str
  ttl : Option Nat
deriving DecidableEq

structure SSHFPRec where
  hostname : Str
  keytype : Nat
  hashtype : Nat
  fingerprint : Str
  ttl : Option Nat
deriving DecidableEq

structure DSRec where
  hostname : Str
  keyid : Nat
  algorithm : Nat
  digest_sha1 : Str
  digest_sha256 : Str
  ttl : Option Nat
deriving DecidableEq

structure DNSKEYRec where
  hostname : Str
  ksk : Bool
  algorithm : Nat
  key_pub : Str
  ttl : Option Nat
deriving DecidableEq

structure SubzRec where
  name : Str
  ns : List NSRec
  ds : List DSRec
  glue : List HostRec
deriving DecidableEq

/-- The `self.dt` dict as used by `Zone.make` and the `zone0.py`
`make_*` methods, restricted to zones without DKIM and SRV records (for
which the corresponding loops are vacuous): `domain0` is the dict key
`_domain`, the five times are whole seconds, and each record list
mirrors the dict entries iterated by the renderer. -/
structure ZoneDt where
  domain0 : Str
  serial : Nat
  contact : Str
  ns0 : Str
  ttl : Nat
  refresh : Nat
  retry : Nat
  expire : Nat
  minimum : Nat
  ns : List NSRec
  mx : List MXRec
  dnssec : List DNSKEYRec
  txt : List TXTRec
  hosts : List HostRec
  cnames : List CNAMERec
  sshfp : List SSHFPRec
  subs : List SubzRec
deriving DecidableEq

/-- `Zone0.fmttd` (zone0.py lines 38-82): same unit table, same
first-non-dividing-unit scan and same human-readable breakdown as
`common.zone_fmttd` (common.py lines 82-136), so it is shared here. -/
def fmttd (ts : Nat) : Except String common.FmttdReturn := common.zone_fmttd ts

/-- `Zone0.fmtrecord` (zone0.py lines 154-177):
`\'%-16s%s\\tIN\\t%s\\t%s\'` with `ttl2` empty for a null TTL and
`\' \' + fmttd(ttl)[0]` otherwise. -/
def fmtrecord (name : Str) (ttl : Option Nat) (rr : Str) (data : Str) : Except String Str := do
  let ttl2 : Str ← match ttl with
    | none => pure []
    | some t => do
      let f ← fmttd t
      pure (' ' :: f.value)
  pure (ljust name 16 ++ ttl2 ++ "\tIN\t".toList ++ rr ++ '\t' :: data)

/-- Python `s.count(\'.\')`. -/
def countDots (s : Str) : Nat := (s.filter (fun c => c == '.')).length

/-- The needsdot application of `Zone0.mkrecord` (zone0.py lines
312-315): append a dot unless the data already ends in one. -/
def applyDotStr (s : Str) : Str := if s.getLastD ' ' = '.' then s else s ++ ['.']

/-- Hostname normalisation of `Zone0.mkrecord` (zone0.py lines
317-323): a hostname of `\'.\'` becomes empty. -/
def fixHostname (h : Str) : Str := if h = ".".toList then [] else h

/-- `Zone0.mkrecord` for `rr == \'ns\'` (zone0.py lines 223-226):
needsdot when the target has at least two dots. -/
def mkrecord_ns (rec : NSRec) : Except String Str := do
  let data := if countDots rec.ns ≥ 2 then applyDotStr rec.ns else rec.ns
  let line ← fmtrecord (fixHostname rec.hostname) rec.ttl "NS".toList data
  pure (line ++ ['\n'])

/-- `Zone0.mkrecord` for `rr == \'mx\'` (zone0.py lines 218-222):
data is `\'%-4d %s\'` of priority and target. -/
def mkrecord_mx (rec : MXRec) : Except String Str := do
  let data0 := ljust (natRepr rec.priority) 4 ++ ' ' :: rec.mx
  let data := if countDots rec.mx ≥ 2 then applyDotStr data0 else data0
  let line ← fmtrecord (fixHostname rec.hostname) rec.ttl "MX".toList data
  pure (line ++ ['\n'])

/-- `Zone0.mkrecord_a_aaaa` plus the `a`/`aaaa` branches (zone0.py
lines 232-237, 326-338): data is the address up to a `\'/\'`. -/
def mkrecord_a_aaaa (rec : HostRec) : Except String Str := do
  let data := (splitOnChar '/' rec.ip_str).headD []
  let line ← fmtrecord (fixHostname rec.hostname) rec.ttl
    (if rec.v4 then "A".toList else "AAAA".toList) data
  pure (line ++ ['\n'])

/-- `Zone0.mkrecord` for `rr == \'txt\'` (zone0.py lines 252-254). -/
def mkrecord_txt (rec : TXTRec) : Except String Str := do
  let line ← fmtrecord (fixHostname rec.hostname) rec.ttl "TXT".toList
    ('"' :: rec.txt ++ ['"'])
  pure (line ++ ['\n'])

/-- `Zone0.mkrecord` for `rr in (\'cname\', \'cnames\')` (zone0.py
lines 247-251). -/
def mkrecord_cname (rec : CNAMERec) : Except String Str := do
  let data := if countDots rec.hostname0 ≥ 2 then applyDotStr rec.hostname0 else rec.hostname0
  let line ← fmtrecord (fixHostname rec.hostname) rec.ttl "CNAME".toList data
  pure (line ++ ['\n'])

/-- `Zone0.mkrecord` for `rr == \'sshfp\'` (zone0.py lines 264-266):
data is `\'%(keytype)d %(hashtype)d %(fingerprint)s\'`. -/
def mkrecord_sshfp (rec : SSHFPRec) : Except String Str := do
  let data := natRepr rec.keytype ++ ' ' :: natRepr rec.hashtype ++ ' ' :: rec.fingerprint
  let line ← fmtrecord (fixHostname rec.hostname) rec.ttl "SSHFP".toList data
  pure (line ++ ['\n'])

/-- `Zone0.mkrecord` for `rr == \'dnssec\'` (zone0.py lines 255-263):
flags 257 for a KSK and 256 otherwise. -/
def mkrecord_dnskey (rec : DNSKEYRec) : Except String Str := do
  let flags : Nat := if rec.ksk then 257 else 256
  let data := natRepr flags ++ " 3 ".toList ++ natRepr rec.algorithm ++ ' ' :: rec.key_pub
  let line ← fmtrecord (fixHostname rec.hostname) rec.ttl "DNSKEY".toList data
  pure (line ++ ['\n'])

/-- `Zone0.mkrecord` for `rr == \'ds\'` (zone0.py lines 227-231): two
lines, digest type 1 with the SHA-1 digest and type 2 with SHA-256. -/
def mkrecord_ds (rec : DSRec) : Except String Str := do
  let d1 := natRepr rec.keyid ++ ' ' :: natRepr rec.algorithm ++ " 1 ".toList ++ rec.digest_sha1
  let d2 := natRepr rec.keyid ++ ' ' :: natRepr rec.algorithm ++ " 2 ".toList ++ rec.digest_sha256
  let l1 ← fmtrecord (fixHostname rec.hostname) rec.ttl "DS".toList d1
  let l2 ← fmtrecord (fixHostname rec.hostname) rec.ttl "DS".toList d2
  pure (l1 ++ '\n' :: l2 ++ ['\n'])

/-- Concatenation of rendered records over a list (the `ret += ...`
loops of zone0.py). -/
def catM {A : Type} (xs : List A) (f : A → Except String Str) : Except String Str :=
  xs.foldlM (fun acc x => do pure (acc ++ (← f x))) []

/-- `Zone0.make_soa` (zone0.py lines 119-152): the exact template with
`$ORIGIN`, `$TTL`, the `@ ... IN SOA` head and the five `%-15s`-padded,
32-space-indented timer lines. -/
def make_soa (d : ZoneDt) : Except String Str := do
  let t ← fmttd d.ttl
  let rf ← fmttd d.refresh
  let rt ← fmttd d.retry
  let ex ← fmttd d.expire
  let mi ← fmttd d.minimum
  let sp32 : Str := List.replicate 32 ' '
  pure ("$ORIGIN\t\t".toList ++ d.domain0 ++ ".\n$TTL\t\t".toList ++ t.value
    ++ "\t; ".toList ++ t.human_readable
    ++ "\n@\t\t".toList ++ t.value ++ "\tIN\tSOA\t".toList ++ d.ns0 ++ ". ".toList
    ++ d.contact ++ ". (\n".toList
    ++ sp32 ++ ljust (natRepr d.serial) 15 ++ " ; serial\n".toList
    ++ sp32 ++ ljust rf.value 15 ++ " ; refresh (".toList ++ rf.human_readable ++ ")\n".toList
    ++ sp32 ++ ljust rt.value 15 ++ " ; retry (".toList ++ rt.human_readable ++ ")\n".toList
    ++ sp32 ++ ljust ex.value 15 ++ " ; expire (".toList ++ ex.human_readable ++ ")\n".toList
    ++ sp32 ++ ljust mi.value 15 ++ " ; minimum (".toList ++ mi.human_readable ++ ")\n".toList
    ++ sp32 ++ ")\n\n".toList)

/-- `Zone0.make_toplevel` (zone0.py lines 340-378): ns, mx, dnssec and
txt records whose hostname is empty or `\'.\'`, then hosts with an empty
hostname. -/
def make_toplevel (d : ZoneDt) : Except String Str := do
  let isTop := fun (h : Str) => h == [] || h == ".".toList
  let a ← catM (d.ns.filter (fun r => isTop r.hostname)) mkrecord_ns
  let b ← catM (d.mx.filter (fun r => isTop r.hostname)) mkrecord_mx
  let c ← catM (d.dnssec.filter (fun r => isTop r.hostname)) mkrecord_dnskey
  let e ← catM (d.txt.filter (fun r => isTop r.hostname)) mkrecord_txt
  let f ← catM (d.hosts.filter (fun r => r.hostname == [])) mkrecord_a_aaaa
  pure (a ++ b ++ c ++ e ++ f)

/-- Python string `<=` (codepoint lexicographic). -/
def strLeB (a b : Str) : Bool := lexLeB (a.map Char.toNat) (b.map Char.toNat)

/-- Insertion step for sorting subzone names. -/
def insertSubz (s : SubzRec) : List SubzRec → List SubzRec
  | [] => [s]
  | t :: rest => if strLeB s.name t.name then s :: t :: rest else t :: insertSubz s rest

/-- `sorted(self.dt[\'subs\'])` (zone0.py line 390): subzones in
ascending name order. -/
def sortSubs : List SubzRec → List SubzRec
  | [] => []
  | s :: rest => insertSubz s (sortSubs rest)

/-- Body of the `make_subzones` loop (zone0.py lines 390-401): per
subzone a leading newline, its NS then DS records; glue records are
accumulated separately. -/
def subzAux : List SubzRec → Except String (Str × Str)
  | [] => .ok ([], [])
  | s :: rest => do
    let nsStr ← catM s.ns mkrecord_ns
    let dsStr ← catM s.ds mkrecord_ds
    let glueStr ← catM s.glue mkrecord_a_aaaa
    let pr ← subzAux rest
    .ok ('\n' :: (nsStr ++ dsStr) ++ pr.1, glueStr ++ pr.2)

/-- `Zone0.make_subzones` (zone0.py lines 380-407). -/
def make_subzones (d : ZoneDt) : Except String Str := do
  let pr ← subzAux (sortSubs d.subs)
  if pr.2 = [] then pure pr.1
  else pure (pr.1 ++ "\n; Glue records\n".toList ++ pr.2)

/-- The host loop of `Zone0.make_hosts` (zone0.py lines 433-484):
render each named host, and on first sight of a hostname its TXT and
SSHFP extras (with blanked hostname) and the CNAMEs pointing at it. -/
def hostsAux (d : ZoneDt) : List HostRec → List Str → Except String (Str × List Str)
  | [], done => .ok ([], done)
  | rec :: rest, done =>
    if rec.hostname == [] then hostsAux d rest done
    else do
      let aLine ← mkrecord_a_aaaa rec
      if done.contains rec.hostname then
        let pr ← hostsAux d rest done
        .ok (aLine ++ pr.1, pr.2)
      else
        let done1 := done ++ [rec.hostname]
        let txtStr ← catM (d.txt.filter (fun r2 => r2.hostname == rec.hostname))
          (fun r2 => mkrecord_txt { r2 with hostname := [] })
        let sshfpStr ← catM (d.sshfp.filter (fun r2 => r2.hostname == rec.hostname))
          (fun r2 => mkrecord_sshfp { r2 with hostname := [] })
        let cn := d.cnames.filter (fun r2 => r2.hostname0 == rec.hostname)
        let cnStr ← catM cn mkrecord_cname
        let done2 := done1 ++ cn.map (fun r2 => r2.hostname)
        let pr ← hostsAux d rest done2
        .ok (aLine ++ txtStr ++ sshfpStr ++ cnStr ++ pr.1, pr.2)

/-- `Zone0.make_hosts` (zone0.py lines 409-494): `done` starts with
the NS hostnames; after the host loop the remaining cnames and txt
records are appended, each group preceded by a newline. -/
def make_hosts (d : ZoneDt) : Except String Str := do
  let done0 := d.ns.map (fun r => r.hostname)
  let pr ← hostsAux d d.hosts done0
  let cnRest ← catM (d.cnames.filter
    (fun r => !(r.hostname == []) && !(pr.2.contains r.hostname))) mkrecord_cname
  let txtRest ← catM (d.txt.filter
    (fun r => !(r.hostname == []) && !(pr.2.contains r.hostname))) mkrecord_txt
  pure (pr.1 ++ '\n' :: cnRest ++ '\n' :: txtRest)

end zone0

namespace zone

/-- `Zone.make` (zone.py lines 13-26): SOA, top level, subzones, a
blank line, hosts. -/
def make (d : zone0.ZoneDt) : Except String Str := do
  let soa ← zone0.make_soa d
  let top ← zone0.make_toplevel d
  let subz ← zone0.make_subzones d
  let hosts ← zone0.make_hosts d
  pure (soa ++ top ++ subz ++ '\n' :: hosts)

end zone

namespace zoneparser

/-- `zoneparser.cleanup_line` (zoneparser.py lines 30-48): the body is
the same comment-removal scan as `parsing.cleanup_line`. -/
def cleanup_line (line0 : Str) : Str :=
  pyStrip (if line0.contains ';' then parsing.cleanupScan line0 false else line0)

/-- `zoneparser.parse_ttl` (zoneparser.py lines 74-95): a trailing
digit means a plain number, otherwise the last character must be one of
the M/H/D/W units. -/
def parse_ttl (st : Str) : Except String Int :=
  match st.getLast? with
  | none => .error "IndexError: string index out of range"
  | some c =>
    if c.isDigit then do
      let n ← pyInt st
      pure (n : Int)
    else
      match parsing.deltaOf c.toUpper with
      | some d => do
        let n ← pyInt st.dropLast
        pure ((n * d : Nat) : Int)
      | none => .error "KeyError"

/-- `zoneparser.ParsedLine` (zoneparser.py lines 51-63): same shape as
the one in parsing.py. -/
abbrev ParsedLine := parsing.ParsedLine

/-- The token-classification loop of `zoneparser.parse_line`
(zoneparser.py lines 128-139), using zoneparser\'s own `is_ttl`. -/
def classifyLead : List Str → Option Str → Option Str → Option (Option Str × Option Str)
  | [], ttl, a1 => some (ttl, a1)
  | it :: rest, ttl, a1 =>
    if it = "IN".toList then classifyLead rest ttl a1
    else if ttl.isNone ∧ is_ttl it = true then classifyLead rest (some it) a1
    else if a1.isNone then classifyLead rest ttl (some it)
    else none

/-- `zoneparser.parse_line` (zoneparser.py lines 98-141). -/
def parse_line (line0 : Str) : Option ParsedLine :=
  if (cleanup_line line0).isEmpty ∨ (cleanup_line line0).headD ' ' = ';' then none
  else if (pySplitWs (cleanup_line line0)).headD [] = "RRSIG".toList
      ∨ (pySplitWs (cleanup_line line0)).headD [] = "NSEC".toList then none
  else
    match (pySplitWs (cleanup_line line0)).findIdx? (fun it => RRS.contains it) with
    | none => none
    | some rridx =>
      match classifyLead ((pySplitWs (cleanup_line line0)).take rridx) none none with
      | none => none
      | some p =>
        some ⟨p.2, p.1, (pySplitWs (cleanup_line line0)).getD rridx [],
              (pySplitWsMax (rridx + 1) (cleanup_line line0)).getLastD []⟩

/-- `zoneparser.Data.SOA` (zoneparser.py lines 370-381). -/
structure SOAFields where
  name : Str := []
  contact : Str := []
  serial : Int := 0
  ttl : Int := 0
  refresh : Int := 0
  retry : Int := 0
  expire : Int := 0
  minimum : Int := 0
  ns0 : Str := []
  reverse : Bool := false
deriving DecidableEq

/-- `zoneparser.Data` (zoneparser.py lines 368-394): the only record
kinds the parser can represent are a, aaaa, cname, ns, txt and mx. -/
structure Data where
  domain : Str := []
  soa : SOAFields := {}
  a : List (Option Str × Str × Option Int) := []
  aaaa : List (Option Str × Str × Option Int) := []
  cname : List (Option Str × Str × Option Int) := []
  ns : List (Str × Option Int) := []
  txt : List (Option Str × Str × Option Int) := []
  mx : List (Option Str × Int × Str × Option Int) := []
  defttl : Int := 0
deriving DecidableEq

/-- `zoneparser.Entry` (zoneparser.py lines 66-71). -/
structure Entry where
  addr1 : Option Str := some []
  ttl : Option Int := none
  rr : Str := []
  addr2 : Str := []
deriving DecidableEq

/-- `ZoneParser.add_entry` (zoneparser.py lines 409-437): PTR is
ignored, NS records with a non-empty owner are skipped, and any RR type
other than A/AAAA/CNAME/NS/TXT/MX falls through to the logging-only
`else` branch, leaving the data untouched. -/
def add_entry (dt : Data) (r : Entry) : Except String Data :=
  if r.rr = "PTR".toList then .ok dt
  else if r.rr = "A".toList ∨ r.rr = "AAAA".toList then
    if r.rr = "A".toList then .ok { dt with a := dt.a ++ [(r.addr1, r.addr2, r.ttl)] }
    else .ok { dt with aaaa := dt.aaaa ++ [(r.addr1, r.addr2, r.ttl)] }
  else if r.rr = "CNAME".toList then
    .ok { dt with cname := dt.cname ++ [(r.addr1, r.addr2, r.ttl)] }
  else if r.rr = "NS".toList then
    match r.addr1 with
    | some a => if a ≠ [] then .ok dt else .ok { dt with ns := dt.ns ++ [(r.addr2, r.ttl)] }
    | none => .ok { dt with ns := dt.ns ++ [(r.addr2, r.ttl)] }
  else if r.rr = "TXT".toList then
    .ok { dt with txt := dt.txt ++ [(r.addr1, r.addr2, r.ttl)] }
  else if r.rr = "MX".toList then do
    let t := pySplitWsMax 1 r.addr2
    let t0 ← match t.get? 0 with
      | some v => pure v
      | none => Except.error "IndexError: list index out of range"
    let t1 ← match t.get? 1 with
      | some v => pure v
      | none => Except.error "IndexError: list index out of range"
    let p ← pyInt t0
    .ok { dt with mx := dt.mx ++ [(r.addr1, (p : Int), t1, r.ttl)] }
  else .ok dt

/-- The loop state of `ZoneParser.read` (zoneparser.py lines
485-509). -/
structure RState where
  lastname : Option Str
  domain : Str
  insoa : Bool
  soastr : Str
  defttl : Int
  soattl : Option Int
  dt : Data

/-- Python list indexing with `IndexError`. -/
def pyIdx (l : List Str) (i : Nat) : Except String Str :=
  match l.get? i with
  | some v => .ok v
  | none => .error "IndexError: list index out of range"

/-- One iteration of the `ZoneParser.read` line loop (zoneparser.py
lines 517-677): `$TTL` handling, SOA-continuation accumulation until a
`\')\'` appears, SOA-start domain checks, lastname tracking, the
defttl/soattl TTL normalisation, and `add_entry`. -/
def readLine (is_reverse : Bool) (st : RState) (line0 : Str) : Except String RState :=
  let line := cleanup_line line0
  if leadMatches "$TTL".toList line then do
    let tok ← pyIdx (pySplitWs line) 1
    let v ← parse_ttl tok
    .ok { st with defttl := v, dt := { st.dt with defttl := v } }
  else if st.insoa then
    let soastr := st.soastr ++ ' ' :: line
    if soastr.contains ')' then
      match parse_line soastr with
      | none => .error "Failed to parsed SOA"
      | some r => do
        let ttl0 : Option Int ← match r.ttl with
          | none => pure none
          | some ts => do pure (some (← parse_ttl ts))
        let t := pySplitWs (r.addr2.filter (fun c => !(c == '(') && !(c == ')')))
        let ttl1 : Int := ttl0.getD st.defttl
        if st.domain = [] then .error "Failed to determine domain"
        else do
          let t0 ← pyIdx t 0
          let t1 ← pyIdx t 1
          let t2 ← pyIdx t 2
          let t3 ← pyIdx t 3
          let t4 ← pyIdx t 4
          let t5 ← pyIdx t 5
          let t6 ← pyIdx t 6
          let serial ← pyInt t2
          let refresh ← parse_ttl t3
          let retry ← parse_ttl t4
          let expire ← parse_ttl t5
          let minimum ← parse_ttl t6
          let soa2 : SOAFields :=
            { name := st.domain, contact := t1, serial := (serial : Int), ttl := ttl1,
              refresh := refresh, retry := retry, expire := expire, minimum := minimum,
              ns0 := t0, reverse := false }
          let dt2 : Data := { st.dt with domain := st.domain, soa := soa2 }
          .ok { st with insoa := false, soastr := soastr, soattl := some ttl1, dt := dt2 }
    else .ok { st with soastr := soastr }
  else
    match parse_line line with
    | none => .ok st
    | some r =>
      if r.rr = "SOA".toList then do
        let domain2 ←
          if st.domain ≠ [] then
            match r.addr1 with
            | some a =>
              if a = "@".toList ∨ a = st.domain then pure st.domain
              else Except.error "Domain mismatch"
            | none => Except.error "Domain mismatch"
          else
            match r.addr1 with
            | none => Except.error "Could not find domain from SOA"
            | some a =>
              if a = [] then Except.error "Could not find domain from SOA" else pure a
        .ok { st with domain := domain2, lastname := none, insoa := true, soastr := line }
      else
        let lastname2 :=
          if st.lastname.isNone ∧ (r.addr1.isNone ∨ r.addr1 = some "@".toList) then none
          else if r.addr1.isSome then r.addr1 else st.lastname
        if is_reverse then .ok { st with lastname := lastname2 }
        else do
          let entryttl0 : Option Int ← match r.ttl with
            | none => pure none
            | some ts =>
              if ts ≠ [] then do pure (some (← parse_ttl ts)) else pure none
          let soaNeq : Bool := match st.soattl with
            | none => true
            | some s2 => decide (s2 ≠ st.defttl)
          let entryttl1 : Option Int :=
            if entryttl0.isNone && soaNeq then some st.defttl else entryttl0
          let finalttl : Option Int := match entryttl1 with
            | none => none
            | some v => if st.soattl = some v then none else some v
          let dt2 ← add_entry st.dt ⟨lastname2, finalttl, r.rr, r.addr2⟩
          .ok { st with lastname := lastname2, dt := dt2 }

/-- `ZoneParser.read` (zoneparser.py lines 480-677) over the lines of
the file, with the zone parameter and reverse flag. -/
def read (zone : Option Str) (is_reverse : Bool) (lines : List Str) : Except String Data := do
  let st0 : RState :=
    { lastname := none,
      domain := match zone with | some z => pyStripChar z '.' | none => [],
      insoa := false, soastr := [], defttl := -1, soattl := none, dt := {} }
  let stFinal ← lines.foldlM (readLine is_reverse) st0
  pure stFinal.dt

end zoneparser

/-- A concrete zone: one `www` A host with an SSHFP fingerprint, one
top-level NS. -/
def dtEx : zone0.ZoneDt :=
  { domain0 := "example.com".toList, serial := 2026101200,
    contact := "root.example.com".toList, ns0 := "ns1.example.com".toList,
    ttl := 3600, refresh := 86400, retry := 3600, expire := 604800, minimum := 60,
    ns := [⟨[], "ns1.example.com".toList, none⟩],
    mx := [], dnssec := [], txt := [],
    hosts := [⟨"www".toList, "10.1.1.2".toList, true, true, none⟩],
    cnames := [],
    sshfp := [⟨"www".toList, 1, 1, "0123456789abcdef0123456789abcdef01234567".toList, none⟩],
    subs := [] }

/-- The same zone without the SSHFP record. -/
def dtExNo : zone0.ZoneDt := { dtEx with sshfp := [] }

/-- The rendered zone text of `dtEx`. -/
def renderedEx : Str := match zone.make dtEx with | .ok t => t | .error _ => []

/-- The rendered zone text of `dtExNo`. -/
def renderedExNo : Str := match zone.make dtExNo with | .ok t => t | .error _ => []

/-- The parse result of both rendered texts. -/
def parsedEx : zoneparser.Data :=
  { domain := "example.com".toList,
    soa := { name := "example.com".toList, contact := "root.example.com.".toList,
             serial := 2026101200, ttl := 3600, refresh := 86400, retry := 3600,
             expire := 604800, minimum := 60, ns0 := "ns1.example.com.".toList,
             reverse := false },
    a := [(some "www".toList, "10.1.1.2".toList, none)],
    aaaa := [], cname := [],
    ns := [("ns1.example.com.".toList, none)],
    txt := [], mx := [], defttl := 3600 }

/-- C1 counterexample: the round trip loses records. The two zones
`dtEx` and `dtExNo` differ by an SSHFP record and render to different
texts (only the first mentions `SSHFP`), yet `ZoneParser.read` parses
both renderings to exactly the same `Data` — the parser\'s data model
cannot even represent the record, so `parse(render(data))` is not
equivalent to `data` and re-rendering cannot reproduce the first
rendering. -/
theorem c1_counterexample :
    zone.make dtEx = .ok renderedEx
    ∧ zone.make dtExNo = .ok renderedExNo
    ∧ renderedEx ≠ renderedExNo
    ∧ hasSub "SSHFP".toList renderedEx = true
    ∧ hasSub "SSHFP".toList renderedExNo = false
    ∧ zoneparser.read (some "example.com".toList) false (splitlines renderedEx) = .ok parsedEx
    ∧ zoneparser.read (some "example.com".toList) false (splitlines renderedExNo)
        = .ok parsedEx := by
  exact ⟨rfl, rfl, by decide, by decide, by decide, by rfl, by rfl⟩

/-- C1 (amended): the parse→render round trip holds only for the
record kinds the parser models. Any line whose tokens contain no
zoneparser RR keyword (A, AAAA, NS, CNAME, MX, TXT, SOA, DNSKEY, PTR) is
silently dropped by `parse_line`; in particular SSHFP, DS and SRV lines
vanish. For the concrete zone `dtEx`, reading the rendered text yields
exactly `parsedEx`: the SOA (serial 2026101200, all timers), the `www`
A record and the top-level NS survive, while the SSHFP record does
not. -/
theorem c1_round_trip (line : Str)
    (h : ∀ it ∈ pySplitWs (zoneparser.cleanup_line line),
        zoneparser.RRS.contains it = false) :
    zoneparser.parse_line line = none
    ∧ zoneparser.read (some "example.com".toList) false (splitlines renderedEx)
        = .ok parsedEx := by
  constructor
  · by_cases h1 : (zoneparser.cleanup_line line).isEmpty = true
        ∨ (zoneparser.cleanup_line line).headD ' ' = ';'
    · unfold zoneparser.parse_line
      rw [if_pos h1]
    · by_cases h2 : (pySplitWs (zoneparser.cleanup_line line)).headD [] = "RRSIG".toList
          ∨ (pySplitWs (zoneparser.cleanup_line line)).headD [] = "NSEC".toList
      · unfold zoneparser.parse_line
        rw [if_neg h1, if_pos h2]
      · have hidx : (pySplitWs (zoneparser.cleanup_line line)).findIdx?
            (fun it => zoneparser.RRS.contains it) = none :=
          List.findIdx?_eq_none_iff.mpr h
        unfold zoneparser.parse_line
        rw [if_neg h1, if_neg h2]
        simp only [hidx]
  · rfl

/-- Witness for `c1_round_trip` at a concrete SSHFP line. -/
theorem c1_round_trip_witness :
    zoneparser.parse_line "www IN SSHFP 1 1 abcd".toList = none
    ∧ zoneparser.read (some "example.com".toList) false (splitlines renderedEx)
        = .ok parsedEx := by
  exact c1_round_trip "www IN SSHFP 1 1 abcd".toList (by decide)

end Vdns
